import Mathlib

/-! DynamicArray: a shallow embedding of `DynamicArray.hpp`

The container of `src/DynamicArray.hpp` is embedded as explicit state passing.

* A pointer `T*` is an address counted in elements; `0` is `nullptr`.
* The storage block a container owns is carried with it as a list of slots:
  slot `i` is `some v` while an object with value `v` lives at `_p + i`, and
  `none` while the slot is raw storage.  Writing outside the block does not
  change it, so an operation that overruns its buffer cannot meet its
  specification in this model.
* `std::construct_at` and `std::destroy_at` on buffer slots are recorded in an
  event log together with `allocate` and `deallocate`; the log is what the
  statements on leak freedom talk about.
* Constructors of the element type may raise.  Whether a call raises is read
  from a static state of the element type (the counter of the tests in
  `src/main.cpp`), which the call also updates.  Move construction transfers
  the slot.  In growth, `insert` and `erase` it does not raise (the header
  comment of `DynamicArray.hpp` excludes raising moves from every guarantee
  there); `decreaseCapacityWith` and `resizeWith` are the shrinking path with a
  move constructor that may raise.
* The reference `push_back` and `emplace_back` take is either an object outside
  the buffer (`emplace_back`, `push_back`) or an element of the container
  itself (`emplace_back_ref`, `push_back_ref` with `Arg.element`).
* `size_type` and `int64_t` are unbounded here: storage is unbounded in the
  model, `allocate` always answers, and inside the preconditions of the
  operations no subtraction goes below zero.
* A loop `for (i = a; i < b; ++i)` is a structural recursion on the number of
  iterations left, `b - a`.  The two places where the source does not
  terminate are modelled with fuel.
-/

namespace DynArr

/-- Address of an element slot, counted in elements; `0` is `nullptr`. -/
abbrev Ptr := Nat

/-- What the container does to raw storage and to the objects in it. -/
inductive Event where
  | allocate (p : Ptr) (n : Nat)
  | deallocate (p : Ptr)
  | construct (p : Ptr) (i : Nat)
  | destroy (p : Ptr) (i : Nat)
  deriving DecidableEq, Repr

/-- The exceptions that leave the container's member functions. -/
inductive Exc where
  | out_of_range
  | thrown
  deriving DecidableEq, Repr

/-- Raising behaviour of the element type: each constructor reads the static
state of the type, answers whether this call raises, and gives the state after
the call. -/
structure ElemType (σ : Type) where
  ctor : σ → Bool × σ
  copy : σ → Bool × σ

/-- An element type none of whose constructors raises, such as `int`. -/
def plainElem : ElemType Unit :=
  { ctor := fun s => (false, s), copy := fun s => (false, s) }

/-- The element type of `SizeConstructorThrow` and `CopyConstructorThrow` in
`src/main.cpp`: the constructor increments a static counter and raises when the
counter reaches `N`. -/
def throwOnNth (N : Nat) : ElemType Nat :=
  { ctor := fun count => (count + 1 == N, count + 1),
    copy := fun count => (count + 1 == N, count + 1) }

/-- Everything outside the containers: the allocator's next free address, the
event log and the static state of the element type. -/
structure World (σ : Type) where
  next : Ptr
  log : List Event
  env : σ

/-- Storage block: one slot per element. -/
abbrev Block (T : Type) := List (Option T)

/-- The data members of `DynamicArray<T>`, with the block `_p` points to. -/
structure DynamicArray (T : Type) where
  _p : Ptr
  _size : Nat
  _capacity : Nat
  mem : Block T
  deriving DecidableEq, Repr

/-- Member `_deltaScale`. -/
def _deltaScale : Nat := 10

/-- Function `Allocator::allocate(n)`: a fresh non-null address and `n` raw slots;
`::operator new` answers a distinct non-null pointer also for `n = 0`. -/
def allocate {T σ : Type} (w : World σ) (n : Nat) : Ptr × Block T × World σ :=
  (w.next + 1, List.replicate n none,
    { w with next := w.next + 1 + n, log := w.log ++ [Event.allocate (w.next + 1) n] })

/-- Function `Allocator::deallocate(p, n)`. -/
def deallocate {σ : Type} (w : World σ) (p : Ptr) : World σ :=
  { w with log := w.log ++ [Event.deallocate p] }

/-- Record an event in the log. -/
def World.emit {σ : Type} (w : World σ) (e : Event) : World σ :=
  { w with log := w.log ++ [e] }

/-- The object in slot `i`, if one lives there: `*(p + i)`. -/
def slot {T : Type} (m : Block T) (i : Nat) : Option T :=
  (m[i]?).join

/-- The elements a reader sees at indices `0 .. size() - 1`. -/
def DynamicArray.contents {T : Type} (da : DynamicArray T) : Block T :=
  da.mem.take da._size

/-- Member functions `size()`, `capacity()`, `empty()`, `data()`. -/
def DynamicArray.size {T : Type} (da : DynamicArray T) : Nat := da._size

def DynamicArray.capacity {T : Type} (da : DynamicArray T) : Nat := da._capacity

def DynamicArray.empty {T : Type} (da : DynamicArray T) : Bool := da._size == 0

def DynamicArray.data {T : Type} (da : DynamicArray T) : Ptr := da._p

/-- Iterator over the elements: the wrapped pointer of `Iterator.hpp`. -/
structure Iterator where
  _p : Int
  deriving DecidableEq, Repr

/-- Member functions `begin()` and `end()`. -/
def DynamicArray.begin {T : Type} (da : DynamicArray T) : Iterator := ⟨da._p⟩

def DynamicArray.end_ {T : Type} (da : DynamicArray T) : Iterator := ⟨da._p + da._size⟩

/-- Iterator arithmetic: `it + d` and `lhs - rhs`. -/
def Iterator.add (it : Iterator) (d : Int) : Iterator := ⟨it._p + d⟩

def Iterator.diff (lhs rhs : Iterator) : Int := lhs._p - rhs._p

/-- Conversion `static_cast<size_type>` of a difference that is not negative. -/
def toSizeType (d : Int) : Nat := d.toNat

/-- Storage invariant of the container: the block has `_capacity` slots, the
live elements fit, a null buffer has no capacity. -/
def DynamicArray.Valid {T : Type} (da : DynamicArray T) : Prop :=
  da.mem.length = da._capacity ∧ da._size ≤ da._capacity ∧ (da._p = 0 → da._capacity = 0)

instance {T : Type} (da : DynamicArray T) : Decidable da.Valid := by
  unfold DynamicArray.Valid; infer_instance

/-! ## Element access -/

/-- Member `operator[]`: the object at `_p + key`, unchecked. -/
def DynamicArray.index {T : Type} (da : DynamicArray T) (key : Nat) : Option T :=
  slot da.mem key

/-- Member `reference at(key)`: the checked access of the mutable container.
The container after the call is returned beside the outcome. -/
def DynamicArray.at_ {T : Type} (da : DynamicArray T) (key : Nat) :
    Except Exc (Option T) × DynamicArray T :=
  if key ≥ da._size then (Except.error Exc.out_of_range, da)
  else (Except.ok (slot da.mem key), da)

/-- Member `const_reference at(key) const { return at(key); }`: on a const
object the only viable overload of the inner call is this function itself.
One unit of fuel is one call; `none` means the call has not returned. -/
def DynamicArray.at_const {T : Type} (da : DynamicArray T) (key : Nat) :
    Nat → Option (Except Exc (Option T))
  | 0 => none
  | fuel + 1 => DynamicArray.at_const da key fuel

/-! ## Loops over the storage blocks -/

/-- State of a loop that may raise: whether a constructor raised, the index
the loop stopped at, the block written to and the world. -/
structure Built (T σ : Type) where
  raised : Bool
  i : Nat
  mem : Block T
  world : World σ

/-- Loop `for (; i < n; ++i) std::construct_at(_p + i);` with `k = n - i`
iterations left: default construction in place. -/
def constructLoop {T σ : Type} [Inhabited T] (E : ElemType σ) (p : Ptr) :
    Nat → Nat → Block T → World σ → Built T σ
  | 0, i, m, w => ⟨false, i, m, w⟩
  | k + 1, i, m, w =>
    if (E.ctor w.env).1 then ⟨true, i, m, { w with env := (E.ctor w.env).2 }⟩
    else constructLoop E p k (i + 1) (m.set i (some default))
      (World.emit { w with env := (E.ctor w.env).2 } (Event.construct p i))

/-- Loop `for (; i < da._size; ++i) std::construct_at(p + i, *(da._p + i));`
with `k` iterations left: copy construction from the block `src`. -/
def copyLoop {T σ : Type} (E : ElemType σ) (p : Ptr) (src : Block T) :
    Nat → Nat → Block T → World σ → Built T σ
  | 0, i, m, w => ⟨false, i, m, w⟩
  | k + 1, i, m, w =>
    if (E.copy w.env).1 then ⟨true, i, m, { w with env := (E.copy w.env).2 }⟩
    else copyLoop E p src k (i + 1) (m.set i (slot src i))
      (World.emit { w with env := (E.copy w.env).2 } (Event.construct p i))

/-- Loop `for (pi = a; pi < b; ++pi) std::destroy_at(p + pi);` with `k = b - a`
iterations left. -/
def destroyLoop {T σ : Type} (p : Ptr) :
    Nat → Nat → Block T → World σ → Block T × World σ
  | 0, _, m, w => (m, w)
  | k + 1, i, m, w => destroyLoop p k (i + 1) (m.set i none) (w.emit (Event.destroy p i))

/-- Loop `for (; i < n; ++i) { std::construct_at(p + i + off, std::move(*(_p + i)));
std::destroy_at(_p + i); }` with `k` iterations left: relocation from the old
block `old` at `op` into the new block `m` at `p`.  The source has `off = 0` in
`increaseCapacity` and in the first loop of `expandAndInsert`, `off = 1` in the
second. -/
def relocateLoop {T σ : Type} (op p : Ptr) (off : Nat) :
    Nat → Nat → Block T → Block T → World σ → Block T × Block T × World σ
  | 0, _, old, m, w => (old, m, w)
  | k + 1, i, old, m, w =>
    relocateLoop op p off k (i + 1) (old.set i none) (m.set (i + off) (slot old i))
      ((w.emit (Event.construct p (i + off))).emit (Event.destroy op i))

/-- Loop `for (i = 0; i < _size && i < _capacity; ++i)
std::construct_at(p + i, std::move(*(_p + i)));` of `decreaseCapacity`, with `k`
iterations left. -/
def moveLoop {T σ : Type} (p : Ptr) (old : Block T) :
    Nat → Nat → Block T → World σ → Block T × World σ
  | 0, _, m, w => (m, w)
  | k + 1, i, m, w =>
    moveLoop p old k (i + 1) (m.set i (slot old i)) (w.emit (Event.construct p i))

/-- Loop of `insert`: `for (i = 0; i < shift; ++i) {
std::construct_at(_p + _size - i, std::move(*(_p + _size - 1 - i)));
std::destroy_at(_p + _size - 1 - i); }` with `k` iterations left. -/
def shiftRightLoop {T σ : Type} (p : Ptr) (size : Nat) :
    Nat → Nat → Block T → World σ → Block T × World σ
  | 0, _, m, w => (m, w)
  | k + 1, i, m, w =>
    shiftRightLoop p size k (i + 1)
      ((m.set (size - i) (slot m (size - 1 - i))).set (size - 1 - i) none)
      ((w.emit (Event.construct p (size - i))).emit (Event.destroy p (size - 1 - i)))

/-- Loop of `erase`: `for (i = shift; i + 1 < _size; ++i) { std::destroy_at(_p + i);
std::construct_at(_p + i, std::move(*(_p + i + 1))); }` with `k` iterations
left. -/
def shiftLeftLoop {T σ : Type} (p : Ptr) :
    Nat → Nat → Block T → World σ → Block T × World σ
  | 0, _, m, w => (m, w)
  | k + 1, i, m, w =>
    shiftLeftLoop p k (i + 1) ((m.set i none).set i (slot (m.set i none) (i + 1)))
      ((w.emit (Event.destroy p i)).emit (Event.construct p i))

/-! ## Construction -/

/-- Constructor `DynamicArray()`. -/
def DynamicArray.mk0 {T : Type} : DynamicArray T :=
  { _p := 0, _size := 0, _capacity := 0, mem := [] }

/-- Constructor `DynamicArray(size)`: when a default constructor raises, the
elements built so far are destroyed, the buffer is released and the exception
leaves the constructor. -/
def DynamicArray.sized {T σ : Type} [Inhabited T] (E : ElemType σ) (w : World σ) (size : Nat) :
    Except Exc (DynamicArray T) × World σ :=
  let a := (allocate w size : Ptr × Block T × World σ)
  let c := constructLoop E a.1 (size - 0) 0 a.2.1 a.2.2
  if c.raised then
    let d := destroyLoop a.1 (c.i - 0) 0 c.mem c.world
    (Except.error Exc.thrown, deallocate d.2 a.1)
  else
    (Except.ok { _p := a.1, _size := size, _capacity := size, mem := c.mem }, c.world)

/-! ## Capacity -/

/-- Member `increaseCapacity(delta)`. -/
def DynamicArray.increaseCapacity {T σ : Type} (w : World σ) (da : DynamicArray T)
    (delta : Nat) : DynamicArray T × World σ :=
  let a := (allocate w (da._capacity + delta) : Ptr × Block T × World σ)
  let r := relocateLoop da._p a.1 0 (da._size - 0) 0 da.mem a.2.1 a.2.2
  ({ _p := a.1, _size := da._size, _capacity := da._capacity + delta, mem := r.2.1 },
    deallocate r.2.2 da._p)

/-- Member `decreaseCapacity(delta)` for an element type whose move constructor
does not raise; `decreaseCapacityWith` is the member for every element type. -/
def DynamicArray.decreaseCapacity {T σ : Type} (w : World σ) (da : DynamicArray T)
    (delta : Nat) : DynamicArray T × World σ :=
  let a := (allocate w (da._capacity - delta) : Ptr × Block T × World σ)
  let cap := da._capacity - delta
  let r := moveLoop a.1 da.mem (min da._size cap) 0 a.2.1 a.2.2
  let d := destroyLoop da._p (da._size - 0) 0 da.mem r.2
  ({ _p := a.1, _size := if cap < da._size then cap else da._size, _capacity := cap,
     mem := r.1 },
    deallocate d.2 da._p)

/-! ## Modifiers -/

/-- What the reference handed to `push_back` or `emplace_back` refers to: an
object outside the buffer of this container, holding the value `v`, or the
element `(*this)[key]`, that is the object at `_p + key` at the time of the
call. -/
inductive Arg (T : Type) where
  | value (v : T)
  | element (key : Nat)
  deriving DecidableEq, Repr

/-- What `increaseCapacity(delta)` leaves at the old address `_p`: the old block
after the relocation loop has destroyed its elements.  The block has been
released, a reference into it dangles. -/
def DynamicArray.leftBehind {T σ : Type} (w : World σ) (da : DynamicArray T)
    (delta : Nat) : Block T :=
  (relocateLoop da._p (allocate w (da._capacity + delta) : Ptr × Block T × World σ).1 0
    (da._size - 0) 0 da.mem
    (allocate w (da._capacity + delta) : Ptr × Block T × World σ).2.1
    (allocate w (da._capacity + delta) : Ptr × Block T × World σ).2.2).1

/-- The object the reference denotes when `std::construct_at` reads it, `old`
being what is then at the address the buffer had at the time of the call. -/
def Arg.read {T : Type} : Arg T → Block T → Option T
  | Arg.value v, _ => some v
  | Arg.element key, old => slot old key

/-- Member `emplace_back(args...)` as the source has it, the argument being a
reference: `increaseCapacity` runs first when the container is full, and the
reference is read only afterwards, by `std::construct_at(_p + _size, args...)`.
The constructor call is given by its raising behaviour `mk`. -/
def DynamicArray.emplace_back_ref {T σ : Type} (w : World σ) (da : DynamicArray T)
    (mk : σ → Bool × σ) (arg : Arg T) : Except Exc Unit × DynamicArray T × World σ :=
  let g := if da._size = da._capacity then da.increaseCapacity w _deltaScale else (da, w)
  let old := if da._size = da._capacity then da.leftBehind w _deltaScale else da.mem
  if (mk g.2.env).1 then
    (Except.error Exc.thrown, g.1, { g.2 with env := (mk g.2.env).2 })
  else
    (Except.ok (),
      { g.1 with mem := g.1.mem.set g.1._size (arg.read old), _size := g.1._size + 1 },
      World.emit { g.2 with env := (mk g.2.env).2 } (Event.construct g.1._p g.1._size))

/-- Member `push_back(const value_type&)` as the source has it: `emplace_back`
of the reference with the copy constructor. -/
def DynamicArray.push_back_ref {T σ : Type} (E : ElemType σ) (w : World σ)
    (da : DynamicArray T) (arg : Arg T) : Except Exc Unit × DynamicArray T × World σ :=
  da.emplace_back_ref w E.copy arg

/-- Member `emplace_back(args...)` called with arguments that are objects
outside the buffer of this container, `v` being the value the constructor call
`T(args...)` builds from them. -/
def DynamicArray.emplace_back {T σ : Type} (w : World σ) (da : DynamicArray T)
    (mk : σ → Bool × σ) (v : T) : Except Exc Unit × DynamicArray T × World σ :=
  da.emplace_back_ref w mk (Arg.value v)

/-- Member `push_back(const value_type&)` called with an object outside the
buffer of this container: `emplace_back` with the copy constructor. -/
def DynamicArray.push_back {T σ : Type} (E : ElemType σ) (w : World σ) (da : DynamicArray T)
    (val : T) : Except Exc Unit × DynamicArray T × World σ :=
  da.emplace_back w E.copy val

/-- Member `push_back(value_type&&)` called with an object outside the buffer
of this container, such as a temporary: `emplace_back` with the move
constructor. -/
def DynamicArray.push_back_move {T σ : Type} (w : World σ) (da : DynamicArray T)
    (val : T) : Except Exc Unit × DynamicArray T × World σ :=
  da.emplace_back w (fun s => (false, s)) val

/-- Member `pop_back()`: `std::destroy_at(_p + --_size)`. -/
def DynamicArray.pop_back {T σ : Type} (w : World σ) (da : DynamicArray T) :
    DynamicArray T × World σ :=
  ({ da with _size := da._size - 1, mem := da.mem.set (da._size - 1) none },
    w.emit (Event.destroy da._p (da._size - 1)))

/-- Member `expandAndInsert(it, val)`: growth and insertion in one pass. -/
def DynamicArray.expandAndInsert {T σ : Type} (E : ElemType σ) (w : World σ)
    (da : DynamicArray T) (it : Iterator) (val : T) :
    Except Exc Iterator × DynamicArray T × World σ :=
  if (E.copy w.env).1 then
    (Except.error Exc.thrown, da, { w with env := (E.copy w.env).2 })
  else
    let a := (allocate { w with env := (E.copy w.env).2 } (da._capacity + _deltaScale) :
      Ptr × Block T × World σ)
    let shift := toSizeType (it.diff da.begin)
    let r1 := relocateLoop da._p a.1 0 (shift - 0) 0 da.mem a.2.1 a.2.2
    let m1 := r1.2.1.set shift (some val)
    let w1 := r1.2.2.emit (Event.construct a.1 shift)
    let r2 := relocateLoop da._p a.1 1 (da._size - shift) shift r1.1 m1 w1
    let da2 : DynamicArray T :=
      { _p := a.1, _size := da._size + 1, _capacity := da._capacity + _deltaScale,
        mem := r2.2.1 }
    (Except.ok (da2.begin.add (shift : Int)), da2, deallocate r2.2.2 da._p)

/-- Member `insert(it, val)`. -/
def DynamicArray.insert {T σ : Type} (E : ElemType σ) (w : World σ)
    (da : DynamicArray T) (it : Iterator) (val : T) :
    Except Exc Iterator × DynamicArray T × World σ :=
  if da._capacity = da._size then da.expandAndInsert E w it val
  else if (E.copy w.env).1 then
    (Except.error Exc.thrown, da, { w with env := (E.copy w.env).2 })
  else
    let shift := toSizeType (da.end_.diff it)
    let r := shiftRightLoop da._p da._size (shift - 0) 0 da.mem
      { w with env := (E.copy w.env).2 }
    let m := r.1.set (da._size - shift) (some val)
    let w1 := r.2.emit (Event.construct da._p (da._size - shift))
    (Except.ok ⟨(da._p : Int) + ((da._size + 1 : Nat) : Int) - 1 - (shift : Int)⟩,
      { da with mem := m, _size := da._size + 1 }, w1)

/-- Member `erase(it)`. -/
def DynamicArray.erase {T σ : Type} (w : World σ) (da : DynamicArray T) (it : Iterator) :
    Iterator × DynamicArray T × World σ :=
  let shift := toSizeType (it.diff da.begin)
  let r := shiftLeftLoop da._p (da._size - (shift + 1)) shift da.mem w
  (⟨(da._p : Int) + (shift : Int)⟩,
    { da with _size := da._size - 1, mem := r.1.set (da._size - 1) none },
    r.2.emit (Event.destroy da._p (da._size - 1)))

/-- Member `resize(newSize)` for an element type whose move constructor does not
raise; `resizeWith` is the member for every element type. -/
def DynamicArray.resize {T σ : Type} [Inhabited T] (E : ElemType σ) (w : World σ)
    (da : DynamicArray T) (newSize : Nat) : Except Exc Unit × DynamicArray T × World σ :=
  if newSize ≤ da._size then
    let r := da.decreaseCapacity w (da._capacity - newSize)
    (Except.ok (), r.1, r.2)
  else
    let g := if newSize > da._capacity then da.increaseCapacity w (newSize - da._capacity)
      else da.decreaseCapacity w (da._capacity - newSize)
    let c := constructLoop E g.1._p (newSize - g.1._size) g.1._size g.1.mem g.2
    if c.raised then
      let d := destroyLoop g.1._p (c.i - g.1._size) g.1._size c.mem c.world
      (Except.error Exc.thrown, { g.1 with mem := d.1 }, d.2)
    else
      (Except.ok (), { g.1 with mem := c.mem, _size := newSize }, c.world)

/-- A move constructor that does not raise and leaves the static state of the
element type alone. -/
def noexceptMove {σ : Type} : σ → Bool × σ := fun s => (false, s)

/-- Loop `for (i = 0; i < _size && i < _capacity; ++i)
std::construct_at(p + i, std::move(*(_p + i)));` of `decreaseCapacity` for an
element type whose move constructor has the raising behaviour `mv`, with `k`
iterations left.  A type without a move constructor, such as
`CopyConstructorThrow` of `src/main.cpp`, is moved by its copy constructor. -/
def moveLoopWith {T σ : Type} (mv : σ → Bool × σ) (p : Ptr) (old : Block T) :
    Nat → Nat → Block T → World σ → Built T σ
  | 0, i, m, w => ⟨false, i, m, w⟩
  | k + 1, i, m, w =>
    if (mv w.env).1 then ⟨true, i, m, { w with env := (mv w.env).2 }⟩
    else moveLoopWith mv p old k (i + 1) (m.set i (slot old i))
      (World.emit { w with env := (mv w.env).2 } (Event.construct p i))

/-- Member `decreaseCapacity(delta)` for every element type.  `_capacity -= delta`
is executed before the relocation loop; when a move raises there, the
exception leaves the function with `_capacity` lowered and with `_p` and `_size`
as they were, the new block being neither emptied nor released. -/
def DynamicArray.decreaseCapacityWith {T σ : Type} (mv : σ → Bool × σ) (w : World σ)
    (da : DynamicArray T) (delta : Nat) : Except Exc Unit × DynamicArray T × World σ :=
  let a := (allocate w (da._capacity - delta) : Ptr × Block T × World σ)
  let cap := da._capacity - delta
  let r := moveLoopWith mv a.1 da.mem (min da._size cap) 0 a.2.1 a.2.2
  if r.raised then
    (Except.error Exc.thrown, { da with _capacity := cap }, r.world)
  else
    let d := destroyLoop da._p (da._size - 0) 0 da.mem r.world
    (Except.ok (),
      { _p := a.1, _size := if cap < da._size then cap else da._size, _capacity := cap,
        mem := r.mem },
      deallocate d.2 da._p)

/-- Member `resize(newSize)` for every element type: an exception that leaves
`decreaseCapacity` leaves `resize` as well. -/
def DynamicArray.resizeWith {T σ : Type} [Inhabited T] (E : ElemType σ) (mv : σ → Bool × σ)
    (w : World σ) (da : DynamicArray T) (newSize : Nat) :
    Except Exc Unit × DynamicArray T × World σ :=
  if newSize ≤ da._size then
    da.decreaseCapacityWith mv w (da._capacity - newSize)
  else
    let g := if newSize > da._capacity then
        (Except.ok (), da.increaseCapacity w (newSize - da._capacity))
      else da.decreaseCapacityWith mv w (da._capacity - newSize)
    match g.1 with
    | Except.error e => (Except.error e, g.2.1, g.2.2)
    | Except.ok _ =>
      let c := constructLoop E g.2.1._p (newSize - g.2.1._size) g.2.1._size g.2.1.mem g.2.2
      if c.raised then
        let d := destroyLoop g.2.1._p (c.i - g.2.1._size) g.2.1._size c.mem c.world
        (Except.error Exc.thrown, { g.2.1 with mem := d.1 }, d.2)
      else
        (Except.ok (), { g.2.1 with mem := c.mem, _size := newSize }, c.world)

/-- Member `reserve(size)`. -/
def DynamicArray.reserve {T σ : Type} (w : World σ) (da : DynamicArray T) (size : Nat) :
    DynamicArray T × World σ :=
  if da._capacity ≥ size then (da, w)
  else da.increaseCapacity w (size - da._capacity)

/-- Member `clear()`. -/
def DynamicArray.clear {T σ : Type} (w : World σ) (da : DynamicArray T) :
    DynamicArray T × World σ :=
  let d := destroyLoop da._p (da._size - 0) 0 da.mem w
  ({ _p := 0, _size := 0, _capacity := 0, mem := [] }, deallocate d.2 da._p)

/-! ## Assignment -/

/-- Copy assignment `operator=(const DynamicArray&)` of `this` from `da`;
answers the outcome, `this` and `da` after the call, and the world. -/
def DynamicArray.copyAssign {T σ : Type} (E : ElemType σ) (w : World σ)
    (this da : DynamicArray T) :
    Except Exc Unit × DynamicArray T × DynamicArray T × World σ :=
  if this._p = da._p then (Except.ok (), this, da, w)
  else
    let a := (allocate w da._capacity : Ptr × Block T × World σ)
    let c := copyLoop E a.1 da.mem (da._size - 0) 0 a.2.1 a.2.2
    if c.raised then
      let d := destroyLoop a.1 (c.i - 0) 0 c.mem c.world
      (Except.error Exc.thrown, this, da, deallocate d.2 a.1)
    else
      let d := destroyLoop this._p (this._size - 0) 0 this.mem c.world
      (Except.ok (),
        { _p := a.1, _size := da._size, _capacity := da._capacity, mem := c.mem }, da,
        deallocate d.2 this._p)

/-- Loop of the move assignment, `for (size_type i = 0; i < _size; +i)
std::destroy_at(_p + i);`: the step `+i` leaves `i` as it is.  One unit of fuel
is one test of the loop condition; `none` means the loop is still running. -/
def destroyLoopNoStep {T σ : Type} (p : Ptr) (size : Nat) :
    Nat → Nat → Block T → World σ → Option (Block T × World σ)
  | 0, _, _, _ => none
  | fuel + 1, i, m, w =>
    if i < size then
      destroyLoopNoStep p size fuel i (m.set i none) (w.emit (Event.destroy p i))
    else some (m, w)

/-- Move assignment `operator=(DynamicArray&&)` of `this` from `da`; answers
`this` and `da` after the call and the world, or `none` while the call has
not returned. -/
def DynamicArray.moveAssign {T σ : Type} (fuel : Nat) (w : World σ)
    (this da : DynamicArray T) : Option (DynamicArray T × DynamicArray T × World σ) :=
  if this._p = da._p then some (this, da, w)
  else
    match destroyLoopNoStep this._p this._size fuel 0 this.mem w with
    | none => none
    | some d =>
      some ({ _p := da._p, _size := da._size, _capacity := da._capacity, mem := da.mem },
        { _p := 0, _size := 0, _capacity := 0, mem := [] },
        deallocate d.2 this._p)

/-- The loop of `TEST(DynamicArrayTest, EmplaceBack)`: one `emplace_back` for
each value, in order; an exception ends the loop. -/
def emplaceMany {T σ : Type} (mk : σ → Bool × σ) :
    List T → DynamicArray T → World σ → Except Exc Unit × DynamicArray T × World σ
  | [], da, w => (Except.ok (), da, w)
  | v :: vs, da, w =>
    match da.emplace_back w mk v with
    | (Except.ok _, da1, w1) => emplaceMany mk vs da1 w1
    | (Except.error e, da1, w1) => (Except.error e, da1, w1)

/-- Index of the first of the next `n` constructor calls that raises, the
calls being numbered from `i` and the static state being `s` before them;
`none` when none of them raises. -/
def firstRaise {σ : Type} (f : σ → Bool × σ) : Nat → Nat → σ → Option Nat
  | 0, _, _ => none
  | n + 1, i, s => if (f s).1 then some i else firstRaise f n (i + 1) (f s).2

/-! ## The other constructors, `swap` and the ordering -/

/-- Constructor `DynamicArray(const DynamicArray& da)`. -/
def DynamicArray.copyCtor {T σ : Type} (E : ElemType σ) (w : World σ) (da : DynamicArray T) :
    Except Exc (DynamicArray T) × World σ :=
  let a := (allocate w da._capacity : Ptr × Block T × World σ)
  let c := copyLoop E a.1 da.mem (da._size - 0) 0 a.2.1 a.2.2
  if c.raised then
    let d := destroyLoop a.1 (c.i - 0) 0 c.mem c.world
    (Except.error Exc.thrown, deallocate d.2 a.1)
  else
    (Except.ok { _p := a.1, _size := da._size, _capacity := da._capacity, mem := c.mem },
      c.world)

/-- Constructor `DynamicArray(DynamicArray&& da)`: answers the new container and
`da` after the call. -/
def DynamicArray.moveCtor {T : Type} (da : DynamicArray T) :
    DynamicArray T × DynamicArray T :=
  ({ _p := da._p, _size := da._size, _capacity := da._capacity, mem := da.mem },
    { _p := 0, _size := 0, _capacity := 0, mem := [] })

/-- Constructor `DynamicArray(const std::initializer_list<T>& l)`. -/
def DynamicArray.ofList {T σ : Type} (E : ElemType σ) (w : World σ) (l : List T) :
    Except Exc (DynamicArray T) × World σ :=
  let a := (allocate w l.length : Ptr × Block T × World σ)
  let c := copyLoop E a.1 (l.map some) (l.length - 0) 0 a.2.1 a.2.2
  if c.raised then
    let d := destroyLoop a.1 (c.i - 0) 0 c.mem c.world
    (Except.error Exc.thrown, deallocate d.2 a.1)
  else
    (Except.ok { _p := a.1, _size := l.length, _capacity := l.length, mem := c.mem },
      c.world)

/-- Friend `swap(lhs, rhs)`: the three data members are exchanged, the block
goes with its pointer; neither the allocator nor a constructor or destructor
of the element type is called, so the world is handed back as it was. -/
def swap {T σ : Type} (w : World σ) (lhs rhs : DynamicArray T) :
    DynamicArray T × DynamicArray T × World σ :=
  ({ _p := rhs._p, _size := rhs._size, _capacity := rhs._capacity, mem := rhs.mem },
    { _p := lhs._p, _size := lhs._size, _capacity := lhs._capacity, mem := lhs.mem }, w)

/-- The values of `std::weak_ordering`. -/
inductive weak_ordering where
  | less
  | equivalent
  | greater
  deriving DecidableEq, Repr

/-- Comparison `lhs[i] < rhs[i]` of two slots read through `operator[]`; a slot
without a live object is not smaller than anything. -/
def slotLt {T : Type} [LT T] [DecidableRel (fun (x y : T) => x < y)] :
    Option T → Option T → Bool
  | some x, some y => decide (x < y)
  | _, _ => false

/-- Loop of `operator<=>`: `for (i = 0; i < lhs.size() && i < rhs.size(); ++i)
{ if (lhs[i] < rhs[i]) return less; else if (lhs[i] > rhs[i]) return greater; }`
with `k` iterations left; `none` when the loop ends without a `return`. -/
def spaceshipLoop {T : Type} [LT T] [DecidableRel (fun (x y : T) => x < y)]
    (lhs rhs : DynamicArray T) : Nat → Nat → Option weak_ordering
  | 0, _ => none
  | k + 1, i =>
    if slotLt (lhs.index i) (rhs.index i) then some weak_ordering.less
    else if slotLt (rhs.index i) (lhs.index i) then some weak_ordering.greater
    else spaceshipLoop lhs rhs k (i + 1)

/-- Comparison `lhs.size() <=> rhs.size()` of two sizes. -/
def sizeSpaceship (m n : Nat) : weak_ordering :=
  if m < n then weak_ordering.less
  else if m = n then weak_ordering.equivalent
  else weak_ordering.greater

/-- Operator `operator<=>(lhs, rhs)`. -/
def spaceship {T : Type} [LT T] [DecidableRel (fun (x y : T) => x < y)]
    (lhs rhs : DynamicArray T) : weak_ordering :=
  match spaceshipLoop lhs rhs (min lhs.size rhs.size) 0 with
  | some r => r
  | none => sizeSpaceship lhs.size rhs.size

/-- The size invariant of the container: `size() <= capacity()`. -/
def DynamicArray.sizeFits {T : Type} (da : DynamicArray T) : Prop :=
  da.size ≤ da.capacity

instance {T : Type} (da : DynamicArray T) : Decidable da.sizeFits := by
  unfold DynamicArray.sizeFits; infer_instance

/-! ## Equality and reachable states -/

/-- Comparison `lhs[i] != rhs[i]` of two slots read through `operator[]`; a slot
without a live object differs from nothing. -/
def slotNe {T : Type} [DecidableEq T] : Option T → Option T → Bool
  | some x, some y => decide (x ≠ y)
  | _, _ => false

/-- Loop of `operator==`: `for (i = 0; i < lhs.size(); ++i) { if (lhs[i] != rhs[i])
return false; }` followed by `return true`, with `k` iterations left. -/
def equalLoop {T : Type} [DecidableEq T] (lhs rhs : DynamicArray T) : Nat → Nat → Bool
  | 0, _ => true
  | k + 1, i =>
    if slotNe (lhs.index i) (rhs.index i) then false
    else equalLoop lhs rhs k (i + 1)

/-- Operator `operator==(lhs, rhs)`. -/
def operator_eq {T : Type} [DecidableEq T] (lhs rhs : DynamicArray T) : Bool :=
  if lhs.size ≠ rhs.size then false
  else equalLoop lhs rhs (lhs.size - 0) 0

/-- The ordering seen from the other side: `less` and `greater` change
places. -/
def weak_ordering.reverse : weak_ordering → weak_ordering
  | weak_ordering.less => weak_ordering.greater
  | weak_ordering.equivalent => weak_ordering.equivalent
  | weak_ordering.greater => weak_ordering.less

/-- The container `{1, 2, 3}` with capacity 5 at address 1. -/
def sample123 : DynamicArray Nat :=
  { _p := 1, _size := 3, _capacity := 5, mem := [some 1, some 2, some 3, none, none] }

/-- The container `{7, 8}` with capacity 2 at address 7. -/
def sample78 : DynamicArray Nat :=
  { _p := 7, _size := 2, _capacity := 2, mem := [some 7, some 8] }

/-- A world in which the blocks of `sample123` and `sample78` are taken. -/
def sampleWorld : World Unit := { next := 9, log := [], env := () }

/-- The same world for an element type that counts its constructor calls, the
counter being at zero. -/
def countingWorld : World Nat := { next := 9, log := [], env := 0 }

/-! ## Slots and element sequences -/

theorem slot_set {T : Type} (m : Block T) (i j : Nat) (x : Option T) :
    slot (m.set i x) j = if i = j then (if i < m.length then x else none) else slot m j := by
  unfold slot
  rw [List.getElem?_set]
  by_cases h : i = j
  · subst h
    by_cases h2 : i < m.length <;> simp [h2]
  · simp [h]

theorem slot_of_length_le {T : Type} (m : Block T) (j : Nat) (h : m.length ≤ j) :
    slot m j = none := by
  unfold slot
  rw [List.getElem?_eq_none h]
  rfl

theorem slot_replicate_none {T : Type} (n j : Nat) :
    slot (List.replicate n (none : Option T)) j = none := by
  unfold slot
  rw [List.getElem?_replicate]
  by_cases h : j < n <;> simp [h]

theorem getElem?_eq_some_slot {T : Type} (m : Block T) (j : Nat) (h : j < m.length) :
    m[j]? = some (slot m j) := by
  unfold slot
  rw [List.getElem?_eq_getElem h]
  rfl

/-- A block shows the element sequence `xs` in its first `n` slots exactly when
slot `j` holds the `j`-th element for each `j < n`. -/
theorem take_eq_map_some_iff {T : Type} (m : Block T) (n : Nat) (xs : List T)
    (hn : n ≤ m.length) :
    m.take n = xs.map some ↔ xs.length = n ∧ ∀ j, j < n → slot m j = xs[j]? := by
  constructor
  · intro h
    have hlen : xs.length = n := by
      have := congrArg List.length h
      simp at this
      omega
    refine ⟨hlen, fun j hj => ?_⟩
    have h1 := congrArg (fun l => l[j]?) h
    simp only [List.getElem?_take, hj, if_true, List.getElem?_map] at h1
    rw [getElem?_eq_some_slot m j (by omega)] at h1
    have hj2 : j < xs.length := by omega
    rw [List.getElem?_eq_getElem hj2] at h1 ⊢
    simpa using h1
  · rintro ⟨hlen, h⟩
    apply List.ext_getElem?
    intro j
    rw [List.getElem?_take, List.getElem?_map]
    by_cases hj : j < n
    · rw [if_pos hj, getElem?_eq_some_slot m j (by omega), h j hj]
      have hj2 : j < xs.length := by omega
      rw [List.getElem?_eq_getElem hj2]
      rfl
    · rw [if_neg hj, List.getElem?_eq_none (by omega)]
      rfl

/-! ## What the loops leave in the blocks -/

theorem relocateLoop_new_length {T σ : Type} (op p off k : Nat) :
    ∀ (i : Nat) (old m : Block T) (w : World σ),
      (relocateLoop op p off k i old m w).2.1.length = m.length := by
  induction k with
  | zero => intro i old m w; rfl
  | succ k ih => intro i old m w; simp [relocateLoop, ih]

theorem relocateLoop_new_slot {T σ : Type} (op p off k : Nat) :
    ∀ (i : Nat) (old m : Block T) (w : World σ) (j : Nat),
      slot (relocateLoop op p off k i old m w).2.1 j =
        if i + off ≤ j ∧ j < i + off + k ∧ j < m.length then slot old (j - off)
        else slot m j := by
  induction k with
  | zero => intro i old m w j; rw [if_neg (by omega)]; rfl
  | succ k ih =>
    intro i old m w j
    simp only [relocateLoop]
    rw [ih]
    simp only [slot_set, List.length_set]
    by_cases h1 : i + off = j
    · subst h1
      by_cases h2 : i + off < m.length
      · simp [h2]
      · simp [h2, slot_of_length_le m (i + off) (by omega)]
    · by_cases h2 : i + 1 + off ≤ j ∧ j < i + 1 + off + k ∧ j < m.length
      · have h3 : i + off ≤ j ∧ j < i + off + (k + 1) ∧ j < m.length := by omega
        have h4 : ¬ i = j - off := by omega
        simp [h1, h2, h3, h4]
      · have h3 : ¬ (i + off ≤ j ∧ j < i + off + (k + 1) ∧ j < m.length) := by omega
        simp [h1, h2, h3]

theorem relocateLoop_old_slot {T σ : Type} (op p off k : Nat) :
    ∀ (i : Nat) (old m : Block T) (w : World σ) (j : Nat),
      slot (relocateLoop op p off k i old m w).1 j =
        if i ≤ j ∧ j < i + k then none else slot old j := by
  induction k with
  | zero => intro i old m w j; rw [if_neg (by omega)]; rfl
  | succ k ih =>
    intro i old m w j
    simp only [relocateLoop]
    rw [ih]
    simp only [slot_set]
    by_cases h1 : i = j
    · subst h1
      by_cases h2 : i < old.length
      · simp [h2]
      · simp [h2, slot_of_length_le old i (by omega)]
    · by_cases h2 : i + 1 ≤ j ∧ j < i + 1 + k
      · have h3 : i ≤ j ∧ j < i + (k + 1) := by omega
        simp [h2, h3]
      · have h3 : ¬ (i ≤ j ∧ j < i + (k + 1)) := by omega
        simp [h1, h2, h3]

theorem moveLoop_length {T σ : Type} (p : Nat) (old : Block T) (k : Nat) :
    ∀ (i : Nat) (m : Block T) (w : World σ),
      (moveLoop p old k i m w).1.length = m.length := by
  induction k with
  | zero => intro i m w; rfl
  | succ k ih => intro i m w; simp [moveLoop, ih]

theorem moveLoop_slot {T σ : Type} (p : Nat) (old : Block T) (k : Nat) :
    ∀ (i : Nat) (m : Block T) (w : World σ) (j : Nat),
      slot (moveLoop p old k i m w).1 j =
        if i ≤ j ∧ j < i + k ∧ j < m.length then slot old j else slot m j := by
  induction k with
  | zero => intro i m w j; rw [if_neg (by omega)]; rfl
  | succ k ih =>
    intro i m w j
    simp only [moveLoop]
    rw [ih]
    simp only [slot_set, List.length_set]
    by_cases h1 : i = j
    · subst h1
      by_cases h2 : i < m.length
      · simp [h2]
      · simp [h2, slot_of_length_le m i (by omega)]
    · by_cases h2 : i + 1 ≤ j ∧ j < i + 1 + k ∧ j < m.length
      · have h3 : i ≤ j ∧ j < i + (k + 1) ∧ j < m.length := by omega
        simp [h2, h3]
      · have h3 : ¬ (i ≤ j ∧ j < i + (k + 1) ∧ j < m.length) := by omega
        simp [h1, h2, h3]

theorem destroyLoop_length {T σ : Type} (p k : Nat) :
    ∀ (i : Nat) (m : Block T) (w : World σ),
      (destroyLoop p k i m w).1.length = m.length := by
  induction k with
  | zero => intro i m w; rfl
  | succ k ih => intro i m w; simp [destroyLoop, ih]

theorem destroyLoop_slot {T σ : Type} (p k : Nat) :
    ∀ (i : Nat) (m : Block T) (w : World σ) (j : Nat),
      slot (destroyLoop p k i m w).1 j = if i ≤ j ∧ j < i + k then none else slot m j := by
  induction k with
  | zero => intro i m w j; rw [if_neg (by omega)]; rfl
  | succ k ih =>
    intro i m w j
    simp only [destroyLoop]
    rw [ih]
    simp only [slot_set]
    by_cases h1 : i = j
    · subst h1
      by_cases h2 : i < m.length
      · simp [h2]
      · simp [h2, slot_of_length_le m i (by omega)]
    · by_cases h2 : i + 1 ≤ j ∧ j < i + 1 + k
      · have h3 : i ≤ j ∧ j < i + (k + 1) := by omega
        simp [h2, h3]
      · have h3 : ¬ (i ≤ j ∧ j < i + (k + 1)) := by omega
        simp [h1, h2, h3]

theorem destroyLoop_world {T σ : Type} (p k : Nat) :
    ∀ (i : Nat) (m : Block T) (w : World σ),
      (destroyLoop p k i m w).2 =
        { w with log := w.log ++ (List.range' i k).map (Event.destroy p) } := by
  induction k with
  | zero => intro i m w; simp [destroyLoop]
  | succ k ih =>
    intro i m w
    simp only [destroyLoop]
    rw [ih]
    simp [World.emit, List.range'_succ]

/-! ## Capacity changes keep the elements -/

theorem contents_eq_iff {T : Type} (da : DynamicArray T) (xs : List T)
    (h1 : da.mem.length = da._capacity) (h2 : da._size ≤ da._capacity) :
    da.contents = xs.map some ↔
      xs.length = da._size ∧ ∀ j, j < da._size → slot da.mem j = xs[j]? :=
  take_eq_map_some_iff da.mem da._size xs (by omega)

theorem increaseCapacity_props {T σ : Type} (w : World σ) (da : DynamicArray T) (delta : Nat)
    (h2 : da._size ≤ da._capacity) :
    (da.increaseCapacity w delta).1._size = da._size ∧
    (da.increaseCapacity w delta).1._capacity = da._capacity + delta ∧
    (da.increaseCapacity w delta).1.mem.length = da._capacity + delta ∧
    (da.increaseCapacity w delta).1._p = w.next + 1 ∧
    ∀ j, slot (da.increaseCapacity w delta).1.mem j =
      if j < da._size then slot da.mem j else none := by
  refine ⟨rfl, rfl, ?_, rfl, ?_⟩
  · simp [DynamicArray.increaseCapacity, relocateLoop_new_length, allocate]
  · intro j
    simp only [DynamicArray.increaseCapacity, relocateLoop_new_slot, allocate,
      slot_replicate_none, List.length_replicate]
    by_cases hj : j < da._size
    · have : 0 + 0 ≤ j ∧ j < 0 + 0 + (da._size - 0) ∧ j < da._capacity + delta := by omega
      simp [this, hj]
    · have : ¬ (0 + 0 ≤ j ∧ j < 0 + 0 + (da._size - 0) ∧ j < da._capacity + delta) := by omega
      simp [this, hj]

theorem decreaseCapacity_props {T σ : Type} (w : World σ) (da : DynamicArray T) (delta : Nat) :
    (da.decreaseCapacity w delta).1._size = min da._size (da._capacity - delta) ∧
    (da.decreaseCapacity w delta).1._capacity = da._capacity - delta ∧
    (da.decreaseCapacity w delta).1.mem.length = da._capacity - delta ∧
    (da.decreaseCapacity w delta).1._p = w.next + 1 ∧
    ∀ j, slot (da.decreaseCapacity w delta).1.mem j =
      if j < min da._size (da._capacity - delta) then slot da.mem j else none := by
  refine ⟨?_, rfl, ?_, rfl, ?_⟩
  · simp only [DynamicArray.decreaseCapacity]
    by_cases h : da._capacity - delta < da._size
    · rw [if_pos h]; omega
    · rw [if_neg h]; omega
  · simp [DynamicArray.decreaseCapacity, moveLoop_length, allocate]
  · intro j
    simp only [DynamicArray.decreaseCapacity, moveLoop_slot, allocate,
      slot_replicate_none, List.length_replicate]
    by_cases hj : j < min da._size (da._capacity - delta)
    · have : 0 ≤ j ∧ j < 0 + min da._size (da._capacity - delta) ∧
          j < da._capacity - delta := by omega
      simp [this, hj]
    · have : ¬ (0 ≤ j ∧ j < 0 + min da._size (da._capacity - delta) ∧
          j < da._capacity - delta) := by omega
      rw [if_neg this, if_neg hj]

theorem relocateLoop_env {T σ : Type} (op p off k : Nat) :
    ∀ (i : Nat) (old m : Block T) (w : World σ),
      (relocateLoop op p off k i old m w).2.2.env = w.env := by
  induction k with
  | zero => intro i old m w; rfl
  | succ k ih => intro i old m w; simp [relocateLoop, ih, World.emit]

theorem increaseCapacity_env {T σ : Type} (w : World σ) (da : DynamicArray T) (delta : Nat) :
    (da.increaseCapacity w delta).2.env = w.env := by
  simp [DynamicArray.increaseCapacity, deallocate, relocateLoop_env, allocate]

/-! ## `emplace_back` and `push_back` -/

theorem growIfFull_props {T σ : Type} (w : World σ) (da : DynamicArray T) (hv : da.Valid) :
    ∃ g : DynamicArray T × World σ,
      g = (if da._size = da._capacity then da.increaseCapacity w _deltaScale else (da, w)) ∧
      g.1._size = da._size ∧ g.1.mem.length = g.1._capacity ∧ da._size < g.1._capacity ∧
      g.1._p ≠ 0 ∧ g.2.env = w.env ∧
      (g.1._capacity = if da._size = da._capacity then da._capacity + _deltaScale
        else da._capacity) ∧
      ∀ j, j < da._size → slot g.1.mem j = slot da.mem j := by
  obtain ⟨h1, h2, h3⟩ := hv
  have hd : _deltaScale = 10 := rfl
  by_cases hfull : da._size = da._capacity
  · obtain ⟨g1, g2, g3, g4, g5⟩ := increaseCapacity_props w da _deltaScale h2
    refine ⟨da.increaseCapacity w _deltaScale, by rw [if_pos hfull], g1, by rw [g3, g2],
      by rw [g2]; omega, by rw [g4]; exact Nat.succ_ne_zero _, increaseCapacity_env w da _deltaScale,
      by rw [if_pos hfull, g2], ?_⟩
    intro j hj
    rw [g5, if_pos hj]
  · refine ⟨(da, w), by rw [if_neg hfull], rfl, h1, ?_, ?_, rfl, by rw [if_neg hfull], ?_⟩
    · show da._size < da._capacity
      omega
    · show da._p ≠ 0
      intro h0
      have := h3 h0
      omega
    · intro j _
      rfl

theorem emplace_back_props {T σ : Type} (w : World σ) (da : DynamicArray T)
    (mk : σ → Bool × σ) (v : T) (xs : List T)
    (hv : da.Valid) (hxs : da.contents = xs.map some) (hmk : (mk w.env).1 = false) :
    (da.emplace_back w mk v).1 = Except.ok () ∧
    (da.emplace_back w mk v).2.1.Valid ∧
    (da.emplace_back w mk v).2.1.contents = (xs ++ [v]).map some ∧
    (da.emplace_back w mk v).2.1._size = da._size + 1 := by
  obtain ⟨g, hg, g1, g2, g3, g4, g5, _, g6⟩ := growIfFull_props w da hv
  obtain ⟨h1, h2, h3⟩ := hv
  obtain ⟨hlen, hslot⟩ := (contents_eq_iff da xs h1 h2).1 hxs
  have hmk2 : (mk g.2.env).1 = false := by rw [g5]; exact hmk
  have key : da.emplace_back w mk v =
      (Except.ok (),
        { g.1 with mem := g.1.mem.set g.1._size (some v), _size := g.1._size + 1 },
        World.emit { g.2 with env := (mk g.2.env).2 } (Event.construct g.1._p g.1._size)) := by
    simp only [DynamicArray.emplace_back, DynamicArray.emplace_back_ref, Arg.read]
    rw [← hg]
    simp [hmk2]
  rw [key]
  refine ⟨rfl, ⟨?_, ?_, ?_⟩, ?_, ?_⟩
  · show (g.1.mem.set g.1._size (some v)).length = g.1._capacity
    rw [List.length_set, g2]
  · show g.1._size + 1 ≤ g.1._capacity
    omega
  · intro h0
    exact absurd h0 g4
  · rw [contents_eq_iff]
    · refine ⟨?_, ?_⟩
      · show (xs ++ [v]).length = g.1._size + 1
        simp [hlen, g1]
      · intro j hj
        have hj' : j < g.1._size + 1 := hj
        show slot (g.1.mem.set g.1._size (some v)) j = (xs ++ [v])[j]?
        rw [slot_set]
        by_cases hj2 : g.1._size = j
        · have hlt : g.1._size < g.1.mem.length := by omega
          rw [if_pos hj2, if_pos hlt]
          have : j = xs.length := by omega
          subst this
          simp
        · have hj3 : j < da._size := by omega
          rw [if_neg hj2, g6 j hj3, hslot j hj3, List.getElem?_append_left (by omega)]
    · show (g.1.mem.set g.1._size (some v)).length = g.1._capacity
      rw [List.length_set, g2]
    · show g.1._size + 1 ≤ g.1._capacity
      omega
  · show g.1._size + 1 = da._size + 1
    rw [g1]

theorem emplaceMany_props {T σ : Type} (mk : σ → Bool × σ) (hmk : ∀ s, (mk s).1 = false)
    (vs : List T) :
    ∀ (da : DynamicArray T) (w : World σ) (xs : List T),
      da.Valid → da.contents = xs.map some →
      (emplaceMany mk vs da w).1 = Except.ok () ∧
      (emplaceMany mk vs da w).2.1.contents = (xs ++ vs).map some ∧
      (emplaceMany mk vs da w).2.1._size = da._size + vs.length := by
  induction vs with
  | nil => intro da w xs _ hxs; simp [emplaceMany, hxs]
  | cons v vs ih =>
    intro da w xs hv hxs
    obtain ⟨e1, e2, e3, e4⟩ := emplace_back_props w da mk v xs hv hxs (hmk w.env)
    rcases h : da.emplace_back w mk v with ⟨r, da1, w1⟩
    rw [h] at e1 e2 e3 e4
    simp only at e1 e2 e3 e4
    subst e1
    obtain ⟨i1, i2, i3⟩ := ih da1 w1 (xs ++ [v]) e2 e3
    simp only [emplaceMany, h]
    refine ⟨i1, ?_, ?_⟩
    · rw [i2]; simp
    · rw [i3, e4]; simp; omega

/-- For arguments that are objects outside the buffer: `push_back(v)`, with the
copy or with the move constructor, and `emplace_back` building `v` leave the
element sequence `xs` followed by `v` and the size one larger, at full capacity
as well as below it; hence the `emplace_back` calls for the values `vs` leave
`xs` followed by `vs`, and on an empty container exactly `vs`, in call order. -/
theorem emplace_back_appends {T σ : Type} (E : ElemType σ) (mk : σ → Bool × σ) (w : World σ)
    (da : DynamicArray T) (xs : List T) (v : T) (vs : List T)
    (hv : da.Valid) (hxs : da.contents = xs.map some)
    (hE : ∀ s, (E.copy s).1 = false) (hmk : ∀ s, (mk s).1 = false) :
    ((da.push_back E w v).1 = Except.ok () ∧
      (da.push_back E w v).2.1.contents = (xs ++ [v]).map some ∧
      (da.push_back E w v).2.1.size = da.size + 1) ∧
    ((da.push_back_move w v).1 = Except.ok () ∧
      (da.push_back_move w v).2.1.contents = (xs ++ [v]).map some ∧
      (da.push_back_move w v).2.1.size = da.size + 1) ∧
    ((da.emplace_back w mk v).1 = Except.ok () ∧
      (da.emplace_back w mk v).2.1.contents = (xs ++ [v]).map some ∧
      (da.emplace_back w mk v).2.1.size = da.size + 1) ∧
    ((emplaceMany mk vs da w).1 = Except.ok () ∧
      (emplaceMany mk vs da w).2.1.contents = (xs ++ vs).map some ∧
      (emplaceMany mk vs da w).2.1.size = da.size + vs.length) ∧
    ((emplaceMany mk vs DynamicArray.mk0 w).1 = Except.ok () ∧
      (emplaceMany mk vs DynamicArray.mk0 w).2.1.contents = vs.map some ∧
      (emplaceMany mk vs DynamicArray.mk0 w).2.1.size = vs.length) := by
  refine ⟨?_, ?_, ?_, emplaceMany_props mk hmk vs da w xs hv hxs, ?_⟩
  · obtain ⟨e1, _, e3, e4⟩ := emplace_back_props w da E.copy v xs hv hxs (hE w.env)
    exact ⟨e1, e3, e4⟩
  · obtain ⟨e1, _, e3, e4⟩ :=
      emplace_back_props w da (fun s => (false, s)) v xs hv hxs rfl
    exact ⟨e1, e3, e4⟩
  · obtain ⟨e1, _, e3, e4⟩ := emplace_back_props w da mk v xs hv hxs (hmk w.env)
    exact ⟨e1, e3, e4⟩
  · have hv0 : (DynamicArray.mk0 : DynamicArray T).Valid := ⟨rfl, Nat.le_refl _, fun _ => rfl⟩
    obtain ⟨i1, i2, i3⟩ := emplaceMany_props mk hmk vs DynamicArray.mk0 w [] hv0 rfl
    refine ⟨i1, by simpa using i2, ?_⟩
    show (emplaceMany mk vs DynamicArray.mk0 w).2.1._size = vs.length
    rw [i3]
    show 0 + vs.length = vs.length
    omega

theorem emplace_back_appends_witness :
    sample123.Valid ∧ sample123.contents = [1, 2, 3].map some ∧
    (sample123.push_back plainElem sampleWorld 4).2.1.contents = [1, 2, 3, 4].map some ∧
    (sample78.push_back plainElem sampleWorld 9).2.1.contents = [7, 8, 9].map some ∧
    (emplaceMany plainElem.copy [5, 6, 7] DynamicArray.mk0 sampleWorld).2.1.contents =
      [5, 6, 7].map some :=
  ⟨by decide, by decide,
    (emplace_back_appends plainElem plainElem.copy sampleWorld sample123 [1, 2, 3] 4 [5, 6, 7]
      (by decide) (by decide) (fun _ => rfl) (fun _ => rfl)).1.2.1,
    (emplace_back_appends plainElem plainElem.copy sampleWorld sample78 [7, 8] 9 []
      (by decide) (by decide) (fun _ => rfl) (fun _ => rfl)).1.2.1,
    (emplace_back_appends plainElem plainElem.copy sampleWorld sample123 [1, 2, 3] 4 [5, 6, 7]
      (by decide) (by decide) (fun _ => rfl) (fun _ => rfl)).2.2.2.2.2.1⟩

/-! ## `insert` -/

theorem shiftRightLoop_length {T σ : Type} (p size k : Nat) :
    ∀ (i : Nat) (m : Block T) (w : World σ),
      (shiftRightLoop p size k i m w).1.length = m.length := by
  induction k with
  | zero => intro i m w; rfl
  | succ k ih => intro i m w; simp [shiftRightLoop, ih]

theorem shiftRightLoop_slot {T σ : Type} (p size k : Nat) :
    ∀ (i : Nat) (m : Block T) (w : World σ) (j : Nat),
      i + k ≤ size → size < m.length →
      slot (shiftRightLoop p size k i m w).1 j =
        if size - (i + k) < j ∧ j ≤ size - i then slot m (j - 1)
        else if j = size - (i + k) ∧ 0 < k then none
        else slot m j := by
  induction k with
  | zero =>
    intro i m w j _ _
    rw [if_neg (by omega), if_neg (by omega)]
    rfl
  | succ k ih =>
    intro i m w j hik hlen
    simp only [shiftRightLoop]
    rw [ih (i + 1) _ _ j (by omega) (by simp only [List.length_set]; omega)]
    simp only [slot_set, List.length_set]
    split_ifs <;> first | rfl | omega | (congr 1; omega)

theorem getElem?_take_cons_drop {T : Type} (xs : List T) (p : Nat) (v : T) (j : Nat)
    (hp : p ≤ xs.length) :
    (xs.take p ++ v :: xs.drop p)[j]? =
      if j < p then xs[j]? else if j = p then some v else xs[j - 1]? := by
  rw [List.getElem?_append, List.length_take, Nat.min_eq_left hp]
  by_cases h1 : j < p
  · rw [if_pos h1, if_pos h1, List.getElem?_take, if_pos h1]
  · rw [if_neg h1, if_neg h1, List.getElem?_cons]
    by_cases h2 : j = p
    · rw [if_pos h2, if_pos (by omega)]
    · rw [if_neg h2, if_neg (by omega), List.getElem?_drop]
      congr 1
      omega

theorem toSizeType_end_diff {T : Type} (da : DynamicArray T) (p : Nat) (hp : p ≤ da._size) :
    toSizeType (da.end_.diff (da.begin.add p)) = da._size - p := by
  simp only [toSizeType, Iterator.diff, DynamicArray.end_, DynamicArray.begin, Iterator.add]
  omega

theorem toSizeType_diff_begin {T : Type} (da : DynamicArray T) (p : Nat) :
    toSizeType ((da.begin.add p).diff da.begin) = p := by
  simp only [toSizeType, Iterator.diff, DynamicArray.begin, Iterator.add]
  omega

theorem expandAndInsert_props {T σ : Type} (E : ElemType σ) (w : World σ)
    (da : DynamicArray T) (xs : List T) (p : Nat) (v : T)
    (hv : da.Valid) (hxs : da.contents = xs.map some) (hp : p ≤ da._size)
    (hcopy : (E.copy w.env).1 = false) :
    (da.expandAndInsert E w (da.begin.add p) v).1 =
      Except.ok ((da.expandAndInsert E w (da.begin.add p) v).2.1.begin.add p) ∧
    (da.expandAndInsert E w (da.begin.add p) v).2.1.contents =
      (xs.take p ++ v :: xs.drop p).map some ∧
    (da.expandAndInsert E w (da.begin.add p) v).2.1._size = da._size + 1 ∧
    (da.expandAndInsert E w (da.begin.add p) v).2.1._capacity = da._capacity + _deltaScale := by
  obtain ⟨h1, h2, _⟩ := hv
  obtain ⟨hlen, hslot⟩ := (contents_eq_iff da xs h1 h2).1 hxs
  have hd : _deltaScale = 10 := rfl
  simp only [DynamicArray.expandAndInsert, hcopy, Bool.false_eq_true, if_false,
    toSizeType_diff_begin]
  refine ⟨trivial, ?_, trivial, trivial⟩
  rw [contents_eq_iff]
  · refine ⟨by simp [hlen]; omega, ?_⟩
    intro j hj
    have hj' : j < da._size + 1 := hj
    simp only [relocateLoop_new_slot, relocateLoop_old_slot, relocateLoop_new_length, slot_set,
      allocate, List.length_set, List.length_replicate, slot_replicate_none, Nat.sub_zero,
      Nat.add_zero, Nat.zero_add]
    rw [getElem?_take_cons_drop xs p v j (by omega)]
    split_ifs <;>
      first
        | rfl
        | omega
        | (rw [hslot _ (by omega)])
  · simp [relocateLoop_new_length, allocate]
  · show da._size + 1 ≤ da._capacity + _deltaScale
    omega

theorem insert_inplace_props {T σ : Type} (E : ElemType σ) (w : World σ)
    (da : DynamicArray T) (xs : List T) (p : Nat) (v : T)
    (hv : da.Valid) (hxs : da.contents = xs.map some) (hp : p ≤ da._size)
    (hroom : da._capacity ≠ da._size) (hcopy : (E.copy w.env).1 = false) :
    (da.insert E w (da.begin.add p) v).1 =
      Except.ok ((da.insert E w (da.begin.add p) v).2.1.begin.add p) ∧
    (da.insert E w (da.begin.add p) v).2.1.contents =
      (xs.take p ++ v :: xs.drop p).map some ∧
    (da.insert E w (da.begin.add p) v).2.1._size = da._size + 1 ∧
    (da.insert E w (da.begin.add p) v).2.1._capacity = da._capacity := by
  obtain ⟨h1, h2, _⟩ := hv
  obtain ⟨hlen, hslot⟩ := (contents_eq_iff da xs h1 h2).1 hxs
  simp only [DynamicArray.insert, if_neg hroom, hcopy, Bool.false_eq_true, if_false,
    toSizeType_end_diff da p hp]
  refine ⟨?_, ?_, trivial, trivial⟩
  · simp only [DynamicArray.begin, Iterator.add]
    congr 2
    push_cast
    omega
  · rw [contents_eq_iff]
    · refine ⟨by simp [hlen]; omega, ?_⟩
      intro j hj
      have hj' : j < da._size + 1 := hj
      simp only [slot_set, shiftRightLoop_length, Nat.sub_zero]
      rw [shiftRightLoop_slot da._p da._size (da._size - p) 0 da.mem _ j (by omega) (by omega)]
      rw [getElem?_take_cons_drop xs p v j (by omega)]
      split_ifs <;>
        first
          | rfl
          | omega
          | (rw [hslot _ (by omega)])
    · simp [shiftRightLoop_length, h1]
    · show da._size + 1 ≤ da._capacity
      omega

/-- C1: `insert(begin() + p, v)` with `p <= size()` leaves the first `p`
elements of `xs`, then `v`, then the other elements of `xs` in order, and the
size one larger, both with spare capacity (shift in place) and at full
capacity (reallocation); it answers the iterator to the inserted element. -/
theorem insert_spec {T σ : Type} (E : ElemType σ) (w : World σ)
    (da : DynamicArray T) (xs : List T) (p : Nat) (v : T)
    (hv : da.Valid) (hxs : da.contents = xs.map some) (hp : p ≤ da.size)
    (hcopy : (E.copy w.env).1 = false) :
    (da.insert E w (da.begin.add p) v).2.1.contents =
      (xs.take p ++ v :: xs.drop p).map some ∧
    (da.insert E w (da.begin.add p) v).2.1.size = da.size + 1 ∧
    (da.insert E w (da.begin.add p) v).1 =
      Except.ok ((da.insert E w (da.begin.add p) v).2.1.begin.add p) := by
  by_cases hfull : da._capacity = da._size
  · obtain ⟨e1, e2, e3, _⟩ := expandAndInsert_props E w da xs p v hv hxs hp hcopy
    have key : da.insert E w (da.begin.add p) v = da.expandAndInsert E w (da.begin.add p) v := by
      simp only [DynamicArray.insert, if_pos hfull]
    rw [key]
    exact ⟨e2, e3, e1⟩
  · obtain ⟨e1, e2, e3, _⟩ := insert_inplace_props E w da xs p v hv hxs hp hfull hcopy
    exact ⟨e2, e3, e1⟩

theorem insert_spec_witness :
    sample123.Valid ∧ sample123.contents = [1, 2, 3].map some ∧ 1 ≤ sample123.size ∧
    (plainElem.copy sampleWorld.env).1 = false ∧
    (sample123.insert plainElem sampleWorld (sample123.begin.add (1 : Nat)) 9).2.1.contents =
      [1, 9, 2, 3].map some ∧
    (sample78.insert plainElem sampleWorld (sample78.begin.add (2 : Nat)) 9).2.1.contents =
      [7, 8, 9].map some :=
  ⟨by decide, by decide, by decide, rfl,
    (insert_spec plainElem sampleWorld sample123 [1, 2, 3] 1 9
      (by decide) (by decide) (by decide) rfl).1,
    (insert_spec plainElem sampleWorld sample78 [7, 8] 2 9
      (by decide) (by decide) (by decide) rfl).1⟩

/-! ## `erase` -/

theorem shiftLeftLoop_length {T σ : Type} (p k : Nat) :
    ∀ (i : Nat) (m : Block T) (w : World σ),
      (shiftLeftLoop p k i m w).1.length = m.length := by
  induction k with
  | zero => intro i m w; rfl
  | succ k ih => intro i m w; simp [shiftLeftLoop, ih]

theorem shiftLeftLoop_slot {T σ : Type} (p k : Nat) :
    ∀ (i : Nat) (m : Block T) (w : World σ) (j : Nat),
      slot (shiftLeftLoop p k i m w).1 j =
        if i ≤ j ∧ j < i + k ∧ j < m.length then slot m (j + 1) else slot m j := by
  induction k with
  | zero =>
    intro i m w j
    rw [if_neg (by omega)]
    rfl
  | succ k ih =>
    intro i m w j
    simp only [shiftLeftLoop]
    rw [ih (i + 1) _ _ j]
    simp only [slot_set, List.length_set]
    split_ifs <;> first | rfl | omega | (congr 1; omega) | (symm; apply slot_of_length_le; omega)

/-- C2: `erase(begin() + p)` with `p < size()` leaves `xs` without its element
at index `p`, the others in their order, the size one smaller and the capacity
as it was. -/
theorem erase_spec {T σ : Type} (w : World σ) (da : DynamicArray T) (xs : List T) (p : Nat)
    (hv : da.Valid) (hxs : da.contents = xs.map some) (hp : p < da.size) :
    (da.erase w (da.begin.add p)).2.1.contents = (xs.eraseIdx p).map some ∧
    (da.erase w (da.begin.add p)).2.1.size = da.size - 1 ∧
    (da.erase w (da.begin.add p)).2.1.capacity = da.capacity := by
  obtain ⟨h1, h2, _⟩ := hv
  obtain ⟨hlen, hslot⟩ := (contents_eq_iff da xs h1 h2).1 hxs
  have hp' : p < da._size := hp
  simp only [DynamicArray.erase, toSizeType_diff_begin, DynamicArray.size,
    DynamicArray.capacity]
  refine ⟨?_, trivial, trivial⟩
  rw [contents_eq_iff]
  · refine ⟨?_, ?_⟩
    · show (xs.eraseIdx p).length = da._size - 1
      rw [List.length_eraseIdx, if_pos (by omega)]
      omega
    · intro j hj
      have hj' : j < da._size - 1 := hj
      simp only [slot_set, shiftLeftLoop_length, shiftLeftLoop_slot]
      rw [List.getElem?_eraseIdx]
      split_ifs <;>
        first
          | rfl
          | omega
          | (rw [hslot _ (by omega)])
  · simp [shiftLeftLoop_length, h1]
  · show da._size - 1 ≤ da._capacity
    omega

theorem erase_spec_witness :
    sample123.Valid ∧ sample123.contents = [1, 2, 3].map some ∧ 1 < sample123.size ∧
    (sample123.erase sampleWorld (sample123.begin.add (1 : Nat))).2.1.contents =
      [1, 3].map some ∧
    (sample123.erase sampleWorld (sample123.begin.add (1 : Nat))).2.1.capacity = 5 :=
  ⟨by decide, by decide, by decide,
    (erase_spec sampleWorld sample123 [1, 2, 3] 1 (by decide) (by decide) (by decide)).1,
    (erase_spec sampleWorld sample123 [1, 2, 3] 1 (by decide) (by decide) (by decide)).2.2⟩

/-! ## Loops that construct, and may raise -/

theorem constructLoop_props {T σ : Type} [Inhabited T] (E : ElemType σ) (p k : Nat) :
    ∀ (i : Nat) (m : Block T) (w : World σ),
      i ≤ (constructLoop E p k i m w).i ∧
      (constructLoop E p k i m w).i ≤ i + k ∧
      ((constructLoop E p k i m w).raised = false → (constructLoop E p k i m w).i = i + k) ∧
      ((constructLoop E p k i m w).raised = true → (constructLoop E p k i m w).i < i + k) ∧
      (constructLoop E p k i m w).mem.length = m.length ∧
      (∀ j, slot (constructLoop E p k i m w).mem j =
        if i ≤ j ∧ j < (constructLoop E p k i m w).i ∧ j < m.length then some default
        else slot m j) ∧
      (constructLoop E p k i m w).world.log =
        w.log ++ (List.range' i ((constructLoop E p k i m w).i - i)).map (Event.construct p) ∧
      (constructLoop E p k i m w).world.next = w.next := by
  induction k with
  | zero =>
    intro i m w
    simp only [constructLoop]
    refine ⟨Nat.le_refl _, by omega, fun _ => by trivial, fun h => by simp at h, by trivial, ?_,
      by simp, by trivial⟩
    intro j
    rw [if_neg (by omega)]
  | succ k ih =>
    intro i m w
    by_cases h : (E.ctor w.env).1 = true
    · simp only [constructLoop, h, if_true]
      refine ⟨Nat.le_refl _, by omega, fun h => by simp at h, fun _ => by omega, by trivial, ?_,
        by simp, by trivial⟩
      intro j
      rw [if_neg (by omega)]
    · have h' : (E.ctor w.env).1 = false := by simpa using h
      simp only [constructLoop, h', Bool.false_eq_true, if_false]
      obtain ⟨a1, a2, a3, a4, a5, a6, a7, a8⟩ := ih (i + 1) (m.set i (some default))
        (World.emit { w with env := (E.ctor w.env).2 } (Event.construct p i))
      generalize constructLoop E p k (i + 1) (m.set i (some default))
        (World.emit { w with env := (E.ctor w.env).2 } (Event.construct p i)) = c at *
      refine ⟨by omega, by omega, fun hr => by have := a3 hr; omega,
        fun hr => by have := a4 hr; omega, by rw [a5, List.length_set], ?_, ?_, by rw [a8]; rfl⟩
      · intro j
        rw [a6]
        simp only [slot_set, List.length_set]
        split_ifs <;> first | rfl | omega | (symm; apply slot_of_length_le; omega)
      · rw [a7]
        have hc : c.i - i = (c.i - (i + 1)) + 1 := by omega
        rw [hc, List.range'_succ]
        simp [World.emit]

theorem copyLoop_props {T σ : Type} (E : ElemType σ) (p : Nat) (src : Block T) (k : Nat) :
    ∀ (i : Nat) (m : Block T) (w : World σ),
      i ≤ (copyLoop E p src k i m w).i ∧
      (copyLoop E p src k i m w).i ≤ i + k ∧
      ((copyLoop E p src k i m w).raised = false → (copyLoop E p src k i m w).i = i + k) ∧
      ((copyLoop E p src k i m w).raised = true → (copyLoop E p src k i m w).i < i + k) ∧
      (copyLoop E p src k i m w).mem.length = m.length ∧
      (∀ j, slot (copyLoop E p src k i m w).mem j =
        if i ≤ j ∧ j < (copyLoop E p src k i m w).i ∧ j < m.length then slot src j
        else slot m j) ∧
      (copyLoop E p src k i m w).world.log =
        w.log ++ (List.range' i ((copyLoop E p src k i m w).i - i)).map (Event.construct p) ∧
      (copyLoop E p src k i m w).world.next = w.next := by
  induction k with
  | zero =>
    intro i m w
    simp only [copyLoop]
    refine ⟨Nat.le_refl _, by omega, fun _ => by trivial, fun h => by simp at h, by trivial, ?_,
      by simp, by trivial⟩
    intro j
    rw [if_neg (by omega)]
  | succ k ih =>
    intro i m w
    by_cases h : (E.copy w.env).1 = true
    · simp only [copyLoop, h, if_true]
      refine ⟨Nat.le_refl _, by omega, fun h => by simp at h, fun _ => by omega, by trivial, ?_,
        by simp, by trivial⟩
      intro j
      rw [if_neg (by omega)]
    · have h' : (E.copy w.env).1 = false := by simpa using h
      simp only [copyLoop, h', Bool.false_eq_true, if_false]
      obtain ⟨a1, a2, a3, a4, a5, a6, a7, a8⟩ := ih (i + 1) (m.set i (slot src i))
        (World.emit { w with env := (E.copy w.env).2 } (Event.construct p i))
      generalize copyLoop E p src k (i + 1) (m.set i (slot src i))
        (World.emit { w with env := (E.copy w.env).2 } (Event.construct p i)) = c at *
      refine ⟨by omega, by omega, fun hr => by have := a3 hr; omega,
        fun hr => by have := a4 hr; omega, by rw [a5, List.length_set], ?_, ?_, by rw [a8]; rfl⟩
      · intro j
        rw [a6]
        simp only [slot_set, List.length_set]
        split_ifs <;>
          first
            | rfl
            | omega
            | (symm; apply slot_of_length_le; omega)
            | (have e : j = i := by omega
               rw [e])
      · rw [a7]
        have hc : c.i - i = (c.i - (i + 1)) + 1 := by omega
        rw [hc, List.range'_succ]
        simp [World.emit]

/-! ## `resize` -/

theorem resize_shrink_props {T σ : Type} [Inhabited T] (E : ElemType σ) (w : World σ)
    (da : DynamicArray T) (xs : List T) (n : Nat)
    (hv : da.Valid) (hxs : da.contents = xs.map some) (hn : n ≤ da._size) :
    (da.resize E w n).1 = Except.ok () ∧
    (da.resize E w n).2.1._size = n ∧
    (da.resize E w n).2.1._capacity = n ∧
    (da.resize E w n).2.1.contents = (xs.take n).map some := by
  obtain ⟨h1, h2, _⟩ := hv
  obtain ⟨hlen, hslot⟩ := (contents_eq_iff da xs h1 h2).1 hxs
  obtain ⟨d1, d2, d3, _, d5⟩ := decreaseCapacity_props w da (da._capacity - n)
  simp only [DynamicArray.resize, if_pos hn]
  refine ⟨trivial, by rw [d1]; omega, by rw [d2]; omega, ?_⟩
  rw [contents_eq_iff _ _ (by rw [d3, d2]) (by rw [d1, d2]; omega)]
  refine ⟨by rw [d1, List.length_take]; omega, ?_⟩
  intro j hj
  rw [d1] at hj
  rw [d5, if_pos hj, List.getElem?_take, if_pos (by omega), hslot j (by omega)]

theorem resizeStorage_props {T σ : Type} (w : World σ) (da : DynamicArray T) (n : Nat)
    (hv : da.Valid) (hn : da._size < n) :
    ∃ g : DynamicArray T × World σ,
      g = (if n > da._capacity then da.increaseCapacity w (n - da._capacity)
        else da.decreaseCapacity w (da._capacity - n)) ∧
      g.1._size = da._size ∧ g.1._capacity = n ∧ g.1.mem.length = n ∧
      ∀ j, slot g.1.mem j = if j < da._size then slot da.mem j else none := by
  obtain ⟨h1, h2, _⟩ := hv
  by_cases hc : n > da._capacity
  · obtain ⟨g1, g2, g3, _, g5⟩ := increaseCapacity_props w da (n - da._capacity) h2
    exact ⟨_, by rw [if_pos hc], g1, by rw [g2]; omega, by rw [g3]; omega, g5⟩
  · obtain ⟨d1, d2, d3, _, d5⟩ := decreaseCapacity_props w da (da._capacity - n)
    refine ⟨_, by rw [if_neg hc], by rw [d1]; omega, by rw [d2]; omega, by rw [d3]; omega, ?_⟩
    intro j
    rw [d5]
    by_cases hj : j < da._size
    · rw [if_pos hj, if_pos (by omega)]
    · rw [if_neg hj, if_neg (by omega)]

theorem resize_grow_props {T σ : Type} [Inhabited T] (E : ElemType σ) (w : World σ)
    (da : DynamicArray T) (xs : List T) (n : Nat)
    (hv : da.Valid) (hxs : da.contents = xs.map some) (hn : da._size < n)
    (hok : (da.resize E w n).1 = Except.ok ()) :
    (da.resize E w n).2.1._size = n ∧
    (da.resize E w n).2.1._capacity = n ∧
    (da.resize E w n).2.1.contents = (xs ++ List.replicate (n - da._size) default).map some := by
  obtain ⟨g, hg, g1, g2, g3, g5⟩ := resizeStorage_props w da n hv hn
  obtain ⟨h1, h2, _⟩ := hv
  obtain ⟨hlen, hslot⟩ := (contents_eq_iff da xs h1 h2).1 hxs
  obtain ⟨_, _, c3, _, c5, c6, _, _⟩ :=
    constructLoop_props E g.1._p (n - g.1._size) g.1._size g.1.mem g.2
  have key : da.resize E w n =
      if (constructLoop E g.1._p (n - g.1._size) g.1._size g.1.mem g.2).raised then
        (Except.error Exc.thrown,
          { g.1 with mem := (destroyLoop g.1._p
              ((constructLoop E g.1._p (n - g.1._size) g.1._size g.1.mem g.2).i - g.1._size)
              g.1._size (constructLoop E g.1._p (n - g.1._size) g.1._size g.1.mem g.2).mem
              (constructLoop E g.1._p (n - g.1._size) g.1._size g.1.mem g.2).world).1 },
          (destroyLoop g.1._p
              ((constructLoop E g.1._p (n - g.1._size) g.1._size g.1.mem g.2).i - g.1._size)
              g.1._size (constructLoop E g.1._p (n - g.1._size) g.1._size g.1.mem g.2).mem
              (constructLoop E g.1._p (n - g.1._size) g.1._size g.1.mem g.2).world).2)
      else
        (Except.ok (),
          { g.1 with
            mem := (constructLoop E g.1._p (n - g.1._size) g.1._size g.1.mem g.2).mem,
            _size := n },
          (constructLoop E g.1._p (n - g.1._size) g.1._size g.1.mem g.2).world) := by
    simp only [DynamicArray.resize, if_neg (Nat.not_le.mpr hn)]
    rw [← hg]
  generalize constructLoop E g.1._p (n - g.1._size) g.1._size g.1.mem g.2 = c at *
  rw [key] at hok ⊢
  by_cases hr : c.raised = true
  · rw [if_pos hr] at hok
    cases hok
  · have hr' : c.raised = false := by simpa using hr
    have hci := c3 hr'
    rw [if_neg hr]
    refine ⟨rfl, g2, ?_⟩
    rw [contents_eq_iff]
    · refine ⟨?_, ?_⟩
      · show (xs ++ List.replicate (n - da._size) default).length = n
        simp [hlen]
        omega
      · intro j hj
        have hj' : j < n := hj
        show slot c.mem j = (xs ++ List.replicate (n - da._size) default)[j]?
        rw [c6, g5, List.getElem?_append]
        by_cases hj2 : j < da._size
        · rw [if_neg (by omega), if_pos hj2, if_pos (by omega), hslot j hj2]
        · rw [if_pos (by omega), if_neg (by omega), List.getElem?_replicate, if_pos (by omega)]
    · show c.mem.length = g.1._capacity
      rw [c5, g3, g2]
    · show n ≤ g.1._capacity
      omega

/-- C4: a successful `resize(n)` leaves the size `n`; the elements are the
first `n` elements of `xs` when `n <= size()`, and `xs` followed by
`n - size()` default-valued elements when `n > size()`. -/
theorem resize_spec {T σ : Type} [Inhabited T] (E : ElemType σ) (w : World σ)
    (da : DynamicArray T) (xs : List T) (n : Nat)
    (hv : da.Valid) (hxs : da.contents = xs.map some)
    (hok : (da.resize E w n).1 = Except.ok ()) :
    (da.resize E w n).2.1.size = n ∧
    (n ≤ da.size → (da.resize E w n).2.1.contents = (xs.take n).map some) ∧
    (da.size < n → (da.resize E w n).2.1.contents =
      (xs ++ List.replicate (n - da.size) default).map some) := by
  refine ⟨?_, ?_, ?_⟩
  · by_cases hn : n ≤ da._size
    · exact (resize_shrink_props E w da xs n hv hxs hn).2.1
    · exact (resize_grow_props E w da xs n hv hxs (by omega) hok).1
  · intro hn
    exact (resize_shrink_props E w da xs n hv hxs hn).2.2.2
  · intro hn
    exact (resize_grow_props E w da xs n hv hxs hn hok).2.2

theorem resize_spec_witness :
    sample123.Valid ∧ sample123.contents = [1, 2, 3].map some ∧
    (sample123.resize plainElem sampleWorld 2).1 = Except.ok () ∧
    (sample123.resize plainElem sampleWorld 4).1 = Except.ok () ∧
    (sample123.resize plainElem sampleWorld 7).1 = Except.ok () ∧
    (sample123.resize plainElem sampleWorld 2).2.1.contents = [1, 2].map some ∧
    (sample123.resize plainElem sampleWorld 4).2.1.contents = [1, 2, 3, 0].map some ∧
    (sample123.resize plainElem sampleWorld 7).2.1.contents =
      [1, 2, 3, 0, 0, 0, 0].map some :=
  ⟨by decide, by decide, rfl, rfl, rfl,
    (resize_spec plainElem sampleWorld sample123 [1, 2, 3] 2 (by decide) (by decide) rfl).2.1
      (by decide),
    (resize_spec plainElem sampleWorld sample123 [1, 2, 3] 4 (by decide) (by decide) rfl).2.2
      (by decide),
    (resize_spec plainElem sampleWorld sample123 [1, 2, 3] 7 (by decide) (by decide) rfl).2.2
      (by decide)⟩

/-! ## Raising constructors -/

theorem copyLoop_firstRaise {T σ : Type} (E : ElemType σ) (p : Nat) (src : Block T) (k : Nat) :
    ∀ (i : Nat) (m : Block T) (w : World σ),
      (∀ r, firstRaise E.copy k i w.env = some r →
        (copyLoop E p src k i m w).raised = true ∧ (copyLoop E p src k i m w).i = r) ∧
      (firstRaise E.copy k i w.env = none → (copyLoop E p src k i m w).raised = false) := by
  induction k with
  | zero =>
    intro i m w
    exact ⟨fun r h => by simp [firstRaise] at h, fun _ => rfl⟩
  | succ k ih =>
    intro i m w
    by_cases h : (E.copy w.env).1 = true
    · simp only [firstRaise, copyLoop, h, if_true]
      exact ⟨fun r hr => ⟨trivial, by simpa using hr⟩, fun hr => by simp at hr⟩
    · have h' : (E.copy w.env).1 = false := by simpa using h
      simp only [firstRaise, copyLoop, h', Bool.false_eq_true, if_false]
      exact ih (i + 1) (m.set i (slot src i))
        (World.emit { w with env := (E.copy w.env).2 } (Event.construct p i))

theorem constructLoop_firstRaise {T σ : Type} [Inhabited T] (E : ElemType σ) (p k : Nat) :
    ∀ (i : Nat) (m : Block T) (w : World σ),
      (∀ r, firstRaise E.ctor k i w.env = some r →
        (constructLoop E p k i m w).raised = true ∧ (constructLoop E p k i m w).i = r) ∧
      (firstRaise E.ctor k i w.env = none → (constructLoop E p k i m w).raised = false) := by
  induction k with
  | zero =>
    intro i m w
    exact ⟨fun r h => by simp [firstRaise] at h, fun _ => rfl⟩
  | succ k ih =>
    intro i m w
    by_cases h : (E.ctor w.env).1 = true
    · simp only [firstRaise, constructLoop, h, if_true]
      exact ⟨fun r hr => ⟨trivial, by simpa using hr⟩, fun hr => by simp at hr⟩
    · have h' : (E.ctor w.env).1 = false := by simpa using h
      simp only [firstRaise, constructLoop, h', Bool.false_eq_true, if_false]
      exact ih (i + 1) (m.set i (some default))
        (World.emit { w with env := (E.ctor w.env).2 } (Event.construct p i))

theorem firstRaise_throwOnNth (N k : Nat) :
    ∀ (i c : Nat), c < N → N - c ≤ k →
      firstRaise (throwOnNth N).ctor k i c = some (i + (N - c - 1)) := by
  induction k with
  | zero => intro i c h1 h2; omega
  | succ k ih =>
    intro i c h1 h2
    by_cases h : c + 1 = N
    · simp only [firstRaise, throwOnNth, h, beq_self_eq_true, if_true]
      congr 1
      omega
    · have hb : (c + 1 == N) = false := by simpa using h
      simp only [firstRaise, throwOnNth, hb, Bool.false_eq_true, if_false]
      have := ih (i + 1) (c + 1) (by omega) (by omega)
      simp only [throwOnNth] at this
      rw [this]
      congr 1
      omega

theorem take_eq_take_of_slot {T : Type} (m1 m2 : Block T) (n : Nat)
    (h1 : n ≤ m1.length) (h2 : n ≤ m2.length) (h : ∀ j, j < n → slot m1 j = slot m2 j) :
    m1.take n = m2.take n := by
  apply List.ext_getElem?
  intro j
  rw [List.getElem?_take, List.getElem?_take]
  by_cases hj : j < n
  · rw [if_pos hj, if_pos hj, getElem?_eq_some_slot m1 j (by omega),
      getElem?_eq_some_slot m2 j (by omega), h j hj]
  · rw [if_neg hj, if_neg hj]

/-! ## Copy assignment -/

/-- C8: after a successful copy assignment `a = b`, `a` has the element
sequence, the size and the capacity of `b`, and `b` is unchanged; this holds
also when the test `this->_p == da._p` finds the two buffers equal, which for
two containers means that both buffers are null. -/
theorem copyAssign_spec {T σ : Type} (E : ElemType σ) (w : World σ) (a b : DynamicArray T)
    (ha : a.Valid) (hb : b.Valid) (hown : a._p = b._p → a._p = 0 ∨ a = b)
    (hok : (a.copyAssign E w b).1 = Except.ok ()) :
    (a.copyAssign E w b).2.1.contents = b.contents ∧
    (a.copyAssign E w b).2.1.size = b.size ∧
    (a.copyAssign E w b).2.1.capacity = b.capacity ∧
    (a.copyAssign E w b).2.2.1 = b := by
  obtain ⟨a1, a2, a3⟩ := ha
  obtain ⟨b1, b2, b3⟩ := hb
  by_cases hp : a._p = b._p
  · have key : a.copyAssign E w b = (Except.ok (), a, b, w) := by
      simp only [DynamicArray.copyAssign, if_pos hp]
    rw [key]
    rcases hown hp with h0 | hab
    · have ha0 : a._capacity = 0 := a3 h0
      have hb0 : b._capacity = 0 := b3 (hp ▸ h0)
      have has : a._size = 0 := by omega
      have hbs : b._size = 0 := by omega
      refine ⟨?_, ?_, ?_, rfl⟩
      · show a.mem.take a._size = b.mem.take b._size
        rw [has, hbs]
        rfl
      · show a._size = b._size
        omega
      · show a._capacity = b._capacity
        omega
    · subst hab
      exact ⟨rfl, rfl, rfl, rfl⟩
  · obtain ⟨_, _, c3, _, c5, c6, _, _⟩ := copyLoop_props E
      (allocate w b._capacity : Ptr × Block T × World σ).1 b.mem (b._size - 0) 0
      (allocate w b._capacity : Ptr × Block T × World σ).2.1
      (allocate w b._capacity : Ptr × Block T × World σ).2.2
    simp only [DynamicArray.copyAssign, if_neg hp] at hok ⊢
    generalize copyLoop E (allocate w b._capacity : Ptr × Block T × World σ).1 b.mem
      (b._size - 0) 0 (allocate w b._capacity : Ptr × Block T × World σ).2.1
      (allocate w b._capacity : Ptr × Block T × World σ).2.2 = c at *
    by_cases hr : c.raised = true
    · rw [if_pos hr] at hok
      cases hok
    · have hr' : c.raised = false := by simpa using hr
      have hci := c3 hr'
      rw [if_neg hr]
      refine ⟨?_, rfl, rfl, rfl⟩
      show c.mem.take b._size = b.mem.take b._size
      have hlen : c.mem.length = b._capacity := by
        rw [c5]
        simp [allocate]
      apply take_eq_take_of_slot _ _ _ (by omega) (by omega)
      intro j hj
      rw [c6, if_pos ⟨by omega, by omega, by simp [allocate]; omega⟩]

theorem copyAssign_spec_witness :
    sample123.Valid ∧ sample78.Valid ∧
    (sample123._p = sample78._p → sample123._p = 0 ∨ sample123 = sample78) ∧
    (sample123.copyAssign plainElem sampleWorld sample78).1 = Except.ok () ∧
    (sample123.copyAssign plainElem sampleWorld sample78).2.1.contents = [some 7, some 8] ∧
    (sample123.copyAssign plainElem sampleWorld sample78).2.1.capacity = 2 :=
  ⟨by decide, by decide, by decide, rfl,
    (copyAssign_spec plainElem sampleWorld sample123 sample78 (by decide) (by decide)
      (by decide) rfl).1,
    (copyAssign_spec plainElem sampleWorld sample123 sample78 (by decide) (by decide)
      (by decide) rfl).2.2.1⟩

/-- C9: when a copy constructor raises during the copy assignment `a = b` of
two distinct containers, the `i`-th copy being the first to raise, the
exception leaves the assignment, `a` and `b` are exactly what they were, and
the new buffer saw the `i` copies built before, each destroyed once, and was
released. -/
theorem copyAssign_raise_rollback {T σ : Type} (E : ElemType σ) (w : World σ)
    (a b : DynamicArray T) (i : Nat) (hne : a._p ≠ b._p)
    (hraise : firstRaise E.copy b._size 0 w.env = some i) :
    (a.copyAssign E w b).1 = Except.error Exc.thrown ∧
    (a.copyAssign E w b).2.1 = a ∧
    (a.copyAssign E w b).2.2.1 = b ∧
    i < b._size ∧
    (a.copyAssign E w b).2.2.2.log =
      w.log ++ Event.allocate (w.next + 1) b._capacity ::
        ((List.range i).map (Event.construct (w.next + 1)) ++
          (List.range i).map (Event.destroy (w.next + 1)) ++
          [Event.deallocate (w.next + 1)]) := by
  obtain ⟨_, _, _, c4, _, _, c7, _⟩ := copyLoop_props E
    (allocate w b._capacity : Ptr × Block T × World σ).1 b.mem (b._size - 0) 0
    (allocate w b._capacity : Ptr × Block T × World σ).2.1
    (allocate w b._capacity : Ptr × Block T × World σ).2.2
  obtain ⟨f1, f2⟩ := (copyLoop_firstRaise E
    (allocate w b._capacity : Ptr × Block T × World σ).1 b.mem (b._size - 0) 0
    (allocate w b._capacity : Ptr × Block T × World σ).2.1
    (allocate w b._capacity : Ptr × Block T × World σ).2.2).1 i hraise
  simp only [DynamicArray.copyAssign, if_neg hne]
  generalize copyLoop E (allocate w b._capacity : Ptr × Block T × World σ).1 b.mem
    (b._size - 0) 0 (allocate w b._capacity : Ptr × Block T × World σ).2.1
    (allocate w b._capacity : Ptr × Block T × World σ).2.2 = c at *
  have hlt := c4 f1
  rw [if_pos f1]
  refine ⟨rfl, rfl, rfl, by omega, ?_⟩
  simp only [deallocate, destroyLoop_world, c7, f2, allocate, Nat.sub_zero,
    List.range_eq_range']
  simp

theorem copyAssign_raise_rollback_witness :
    sample123._p ≠ sample78._p ∧
    firstRaise (throwOnNth 2).copy sample78._size 0 countingWorld.env = some 1 ∧
    (sample123.copyAssign (throwOnNth 2) countingWorld sample78).1 = Except.error Exc.thrown ∧
    (sample123.copyAssign (throwOnNth 2) countingWorld sample78).2.1 = sample123 ∧
    (sample123.copyAssign (throwOnNth 2) countingWorld sample78).2.2.2.log =
      [Event.allocate 10 2, Event.construct 10 0, Event.destroy 10 0, Event.deallocate 10] :=
  ⟨by decide, by decide,
    (copyAssign_raise_rollback (throwOnNth 2) countingWorld sample123 sample78 1
      (by decide) (by decide)).1,
    (copyAssign_raise_rollback (throwOnNth 2) countingWorld sample123 sample78 1
      (by decide) (by decide)).2.1,
    (copyAssign_raise_rollback (throwOnNth 2) countingWorld sample123 sample78 1
      (by decide) (by decide)).2.2.2.2⟩

/-! ## The sized constructor -/

theorem sized_raise_general {T σ : Type} [Inhabited T] (E : ElemType σ) (w : World σ)
    (n i : Nat) (hraise : firstRaise E.ctor n 0 w.env = some i) :
    (DynamicArray.sized E w n : Except Exc (DynamicArray T) × World σ).1 =
      Except.error Exc.thrown ∧
    i < n ∧
    (DynamicArray.sized E w n : Except Exc (DynamicArray T) × World σ).2.log =
      w.log ++ Event.allocate (w.next + 1) n ::
        ((List.range i).map (Event.construct (w.next + 1)) ++
          (List.range i).map (Event.destroy (w.next + 1)) ++
          [Event.deallocate (w.next + 1)]) := by
  obtain ⟨_, _, _, c4, _, _, c7, _⟩ := constructLoop_props E
    (allocate w n : Ptr × Block T × World σ).1 (n - 0) 0
    (allocate w n : Ptr × Block T × World σ).2.1
    (allocate w n : Ptr × Block T × World σ).2.2
  obtain ⟨f1, f2⟩ := (constructLoop_firstRaise E
    (allocate w n : Ptr × Block T × World σ).1 (n - 0) 0
    (allocate w n : Ptr × Block T × World σ).2.1
    (allocate w n : Ptr × Block T × World σ).2.2).1 i hraise
  simp only [DynamicArray.sized]
  generalize constructLoop E (allocate w n : Ptr × Block T × World σ).1 (n - 0) 0
    (allocate w n : Ptr × Block T × World σ).2.1
    (allocate w n : Ptr × Block T × World σ).2.2 = c at *
  have hlt := c4 f1
  rw [if_pos f1]
  refine ⟨rfl, by omega, ?_⟩
  simp only [deallocate, destroyLoop_world, c7, f2, allocate, Nat.sub_zero,
    List.range_eq_range']
  simp

/-- C10: for an element type whose default constructor raises on its `N`-th
call, `DynamicArray(n)` with `n >= N` fails with that exception; between
`allocate` and `deallocate` of its buffer it built the elements `0 .. N - 2`
and destroyed each of them once. -/
theorem sized_raise_rollback (T : Type) [Inhabited T] (N n : Nat) (w : World Nat)
    (hN : 1 ≤ N) (hn : N ≤ n) (hw : w.env = 0) :
    (DynamicArray.sized (throwOnNth N) w n : Except Exc (DynamicArray T) × World Nat).1 =
      Except.error Exc.thrown ∧
    (DynamicArray.sized (throwOnNth N) w n : Except Exc (DynamicArray T) × World Nat).2.log =
      w.log ++ Event.allocate (w.next + 1) n ::
        ((List.range (N - 1)).map (Event.construct (w.next + 1)) ++
          (List.range (N - 1)).map (Event.destroy (w.next + 1)) ++
          [Event.deallocate (w.next + 1)]) := by
  have hf : firstRaise (throwOnNth N).ctor n 0 w.env = some (N - 1) := by
    rw [hw, firstRaise_throwOnNth N n 0 0 (by omega) (by omega)]
    congr 1
    omega
  obtain ⟨e1, _, e3⟩ := sized_raise_general (T := T) (throwOnNth N) w n (N - 1) hf
  exact ⟨e1, e3⟩

theorem sized_raise_rollback_witness :
    1 ≤ 3 ∧ 3 ≤ 5 ∧ countingWorld.env = 0 ∧
    (DynamicArray.sized (throwOnNth 3) countingWorld 5 :
      Except Exc (DynamicArray Unit) × World Nat).1 = Except.error Exc.thrown ∧
    (DynamicArray.sized (throwOnNth 3) countingWorld 5 :
      Except Exc (DynamicArray Unit) × World Nat).2.log =
      [Event.allocate 10 5, Event.construct 10 0, Event.construct 10 1,
        Event.destroy 10 0, Event.destroy 10 1, Event.deallocate 10] :=
  ⟨by decide, by decide, rfl,
    (sized_raise_rollback Unit 3 5 countingWorld (by decide) (by decide) rfl).1,
    (sized_raise_rollback Unit 3 5 countingWorld (by decide) (by decide) rfl).2⟩

/-! ## Element access: `at` -/

/-- C5: `at(i)` on a mutable container fails with the out-of-range error exactly
when `i >= size()`; when `i < size()` it answers the element `operator[](i)`
answers; the container is unchanged either way. -/
theorem at_checked {T : Type} (da : DynamicArray T) (i : Nat) :
    ((da.at_ i).1 = Except.error Exc.out_of_range ↔ i ≥ da.size) ∧
    (i < da.size → (da.at_ i).1 = Except.ok (da.index i)) ∧
    (da.at_ i).2 = da := by
  unfold DynamicArray.at_ DynamicArray.size DynamicArray.index
  by_cases h : i ≥ da._size
  · simp [h]
  · have h2 : i < da._size := Nat.lt_of_not_ge h
    simp [h, h2]

/-- C6: the const overload of `at` calls itself and so never returns, whatever
the index and however many calls are allowed: neither the element nor the
out-of-range error is ever produced. -/
theorem at_const_never_returns {T : Type} (da : DynamicArray T) (key fuel : Nat) :
    da.at_const key fuel = none := by
  induction fuel with
  | zero => rfl
  | succ n ih => simpa [DynamicArray.at_const] using ih

/-! ## Move assignment -/

theorem destroyLoopNoStep_none {T σ : Type} (p size : Nat) (hs : 0 < size) (fuel : Nat) :
    ∀ (m : Block T) (w : World σ), destroyLoopNoStep p size fuel 0 m w = none := by
  induction fuel with
  | zero => intro m w; rfl
  | succ n ih => intro m w; simp [destroyLoopNoStep, hs, ih]

/-- C7: move assignment into a destination that holds at least one element and
is distinct from the source never completes: the destroy loop does not advance
its index, whatever the number of steps allowed. -/
theorem moveAssign_nonempty_never_returns {T σ : Type} (fuel : Nat) (w : World σ)
    (a b : DynamicArray T) (hne : a._p ≠ b._p) (hsize : 0 < a._size) :
    DynamicArray.moveAssign fuel w a b = none := by
  unfold DynamicArray.moveAssign
  rw [if_neg hne, destroyLoopNoStep_none a._p a._size hsize fuel]

/-- With an empty destination the loop is not entered: the move assignment
completes, the destination takes over the source's buffer, size and capacity,
and the source is left empty with a null buffer. -/
theorem moveAssign_empty_destination {T σ : Type} (fuel : Nat) (w : World σ)
    (a b : DynamicArray T) (hne : a._p ≠ b._p) (hsize : a._size = 0) :
    DynamicArray.moveAssign (fuel + 1) w a b =
      some ({ _p := b._p, _size := b._size, _capacity := b._capacity, mem := b.mem },
        { _p := 0, _size := 0, _capacity := 0, mem := [] }, deallocate w a._p) := by
  unfold DynamicArray.moveAssign
  rw [if_neg hne]
  simp [destroyLoopNoStep, hsize]

theorem moveAssign_nonempty_never_returns_witness :
    sample123._p ≠ sample78._p ∧ 0 < sample123._size ∧
    DynamicArray.moveAssign 1000 sampleWorld sample123 sample78 = none :=
  ⟨by decide, by decide,
    moveAssign_nonempty_never_returns 1000 sampleWorld sample123 sample78 (by decide) (by decide)⟩

/-! ## Ordering: `operator<=>` -/

theorem slotLt_self {T : Type} [LinearOrder T] (o : Option T) : slotLt o o = false := by
  cases o with
  | none => rfl
  | some x => simp [slotLt]

theorem spaceshipLoop_none {T : Type} [LinearOrder T] (a b : DynamicArray T) (k : Nat) :
    ∀ i, (∀ j, i ≤ j → j < i + k → a.index j = b.index j) →
      spaceshipLoop a b k i = none := by
  induction k with
  | zero => intro i _; rfl
  | succ k ih =>
    intro i h
    have hi := h i (Nat.le_refl _) (by omega)
    simp only [spaceshipLoop, hi, slotLt_self, Bool.false_eq_true, if_false]
    exact ih (i + 1) (fun j h1 h2 => h j (by omega) (by omega))

theorem spaceshipLoop_first {T : Type} [LinearOrder T] (a b : DynamicArray T) (k : Nat) :
    ∀ (i d : Nat) (x y : T), i ≤ d → d < i + k →
      (∀ j, i ≤ j → j < d → a.index j = b.index j) →
      a.index d = some x → b.index d = some y → x ≠ y →
      spaceshipLoop a b k i =
        some (if x < y then weak_ordering.less else weak_ordering.greater) := by
  induction k with
  | zero => intro i d x y h1 h2; omega
  | succ k ih =>
    intro i d x y h1 h2 heq hx hy hne
    by_cases hid : i = d
    · subst hid
      by_cases hlt : x < y
      · simp [spaceshipLoop, hx, hy, slotLt, hlt]
      · have hgt : y < x := lt_of_le_of_ne (not_lt.mp hlt) (Ne.symm hne)
        simp [spaceshipLoop, hx, hy, slotLt, hlt, hgt]
    · have hi := heq i (Nat.le_refl _) (by omega)
      simp only [spaceshipLoop, hi, slotLt_self, Bool.false_eq_true, if_false]
      exact ih (i + 1) d x y (by omega) (by omega)
        (fun j h3 h4 => heq j (by omega) h4) hx hy hne

theorem index_eq_getElem? {T : Type} (da : DynamicArray T) (xs : List T)
    (hv : da.Valid) (hxs : da.contents = xs.map some) :
    xs.length = da._size ∧ ∀ j, j < da._size → da.index j = xs[j]? := by
  obtain ⟨h1, h2, _⟩ := hv
  exact (contents_eq_iff da xs h1 h2).1 hxs

/-- C11: `a <=> b` is the lexicographic comparison of the element sequences:
the first index below both sizes at which the elements differ decides, by the
order of the two elements there; when there is no such index the sizes decide,
the shorter container being less and equal sizes giving equivalent; so a
container compares less than every proper extension of it. -/
theorem spaceship_lexicographic {T : Type} [LinearOrder T] (a b : DynamicArray T)
    (xs ys : List T) (ha : a.Valid) (hb : b.Valid)
    (hxs : a.contents = xs.map some) (hys : b.contents = ys.map some) :
    (∀ (i : Nat) (x y : T), xs[i]? = some x → ys[i]? = some y →
      (∀ j, j < i → xs[j]? = ys[j]?) → x ≠ y →
      spaceship a b = if x < y then weak_ordering.less else weak_ordering.greater) ∧
    ((∀ j, j < xs.length → j < ys.length → xs[j]? = ys[j]?) →
      spaceship a b =
        if xs.length < ys.length then weak_ordering.less
        else if xs.length = ys.length then weak_ordering.equivalent
        else weak_ordering.greater) ∧
    (∀ (z : T) (zs : List T), ys = xs ++ z :: zs → spaceship a b = weak_ordering.less) := by
  obtain ⟨hla, hia⟩ := index_eq_getElem? a xs ha hxs
  obtain ⟨hlb, hib⟩ := index_eq_getElem? b ys hb hys
  have hall : (∀ j, j < xs.length → j < ys.length → xs[j]? = ys[j]?) →
      spaceship a b =
        if xs.length < ys.length then weak_ordering.less
        else if xs.length = ys.length then weak_ordering.equivalent
        else weak_ordering.greater := by
    intro h
    have hloop : spaceshipLoop a b (min a.size b.size) 0 = none := by
      apply spaceshipLoop_none
      intro j _ hj
      have hj' : j < min a._size b._size := by simpa [DynamicArray.size] using hj
      rw [hia j (by omega), hib j (by omega)]
      exact h j (by omega) (by omega)
    simp only [spaceship, hloop]
    simp only [sizeSpaceship, DynamicArray.size, hla, hlb]
  refine ⟨?_, hall, ?_⟩
  · intro i x y hx hy heq hne
    have hix : i < xs.length := by
      by_contra hc
      rw [List.getElem?_eq_none (by omega)] at hx
      cases hx
    have hiy : i < ys.length := by
      by_contra hc
      rw [List.getElem?_eq_none (by omega)] at hy
      cases hy
    have hloop := spaceshipLoop_first a b (min a.size b.size) 0 i x y (Nat.zero_le _)
      (by simp only [DynamicArray.size]; omega)
      (fun j _ hj => by rw [hia j (by omega), hib j (by omega)]; exact heq j hj)
      (by rw [hia i (by omega)]; exact hx) (by rw [hib i (by omega)]; exact hy) hne
    simp only [spaceship, hloop]
  · intro z zs hext
    have hlen : ys.length = xs.length + (zs.length + 1) := by simp [hext]
    rw [hall (fun j hj _ => by rw [hext, List.getElem?_append_left hj]), if_pos (by omega)]

theorem spaceship_lexicographic_witness :
    sample123.Valid ∧ sample78.Valid ∧
    sample123.contents = [1, 2, 3].map some ∧ sample78.contents = [7, 8].map some ∧
    spaceship sample123 sample78 = weak_ordering.less :=
  ⟨by decide, by decide, by decide, by decide,
    (spaceship_lexicographic sample123 sample78 [1, 2, 3] [7, 8] (by decide) (by decide)
      (by decide) (by decide)).1 0 1 7 rfl rfl (fun j hj => absurd hj (Nat.not_lt_zero j))
      (by decide)⟩

/-! ## `reserve` -/

/-- C13: `reserve(n)` with `n > capacity()` leaves the size and the elements as
they were and the capacity exactly `n`; with `n <= capacity()` it changes
nothing at all. -/
theorem reserve_spec {T σ : Type} (w : World σ) (da : DynamicArray T) (n : Nat)
    (hv : da.Valid) :
    (da.capacity < n →
      (da.reserve w n).1.size = da.size ∧
      (da.reserve w n).1.contents = da.contents ∧
      (da.reserve w n).1.capacity = n) ∧
    (n ≤ da.capacity → (da.reserve w n).1 = da) := by
  obtain ⟨h1, h2, _⟩ := hv
  constructor
  · intro hn
    have hn' : ¬ da._capacity ≥ n := Nat.not_le.mpr hn
    obtain ⟨g1, g2, g3, _, g5⟩ := increaseCapacity_props w da (n - da._capacity) h2
    simp only [DynamicArray.reserve, if_neg hn', DynamicArray.size, DynamicArray.capacity]
    refine ⟨g1, ?_, ?_⟩
    · show (da.increaseCapacity w (n - da._capacity)).1.mem.take
          (da.increaseCapacity w (n - da._capacity)).1._size = da.mem.take da._size
      rw [g1]
      apply take_eq_take_of_slot _ _ _ (by rw [g3]; omega) (by omega)
      intro j hj
      rw [g5, if_pos hj]
    · rw [g2]
      have : da._capacity < n := hn
      omega
  · intro hn
    have hn' : da._capacity ≥ n := hn
    simp only [DynamicArray.reserve, if_pos hn']

theorem reserve_spec_witness :
    sample123.Valid ∧
    (sample123.reserve sampleWorld 8).1.contents = [1, 2, 3].map some ∧
    (sample123.reserve sampleWorld 8).1.capacity = 8 ∧
    (sample123.reserve sampleWorld 4).1 = sample123 :=
  ⟨by decide,
    ((reserve_spec sampleWorld sample123 8 (by decide)).1 (by decide)).2.1,
    ((reserve_spec sampleWorld sample123 8 (by decide)).1 (by decide)).2.2,
    (reserve_spec sampleWorld sample123 4 (by decide)).2 (by decide)⟩

/-! ## The growth step -/

theorem emplace_back_capacity {T σ : Type} (w : World σ) (da : DynamicArray T)
    (mk : σ → Bool × σ) (v : T) :
    (da.emplace_back w mk v).2.1._capacity =
      if da._size = da._capacity then da._capacity + 10 else da._capacity := by
  simp only [DynamicArray.emplace_back, DynamicArray.emplace_back_ref]
  by_cases hfull : da._size = da._capacity
  · simp only [if_pos hfull]
    split_ifs <;> rfl
  · simp only [if_neg hfull]
    split_ifs <;> rfl

theorem insert_capacity {T σ : Type} (E : ElemType σ) (w : World σ) (da : DynamicArray T)
    (it : Iterator) (v : T) (hcopy : (E.copy w.env).1 = false) :
    (da.insert E w it v).2.1._capacity =
      if da._size = da._capacity then da._capacity + 10 else da._capacity := by
  by_cases hfull : da._capacity = da._size
  · simp only [DynamicArray.insert, if_pos hfull, DynamicArray.expandAndInsert, hcopy,
      Bool.false_eq_true, if_false, if_pos hfull.symm]
    rfl
  · have hne : ¬ da._size = da._capacity := fun h => hfull h.symm
    simp only [DynamicArray.insert, if_neg hfull, hcopy, Bool.false_eq_true, if_false,
      if_neg hne]

/-- C14: `emplace_back`, `push_back` and `insert` leave the capacity `c` when
the size is below it and exactly `c + 10` when the size equals it, whatever
`c` is; `pop_back` never changes the capacity. -/
theorem capacity_growth_step {T σ : Type} (E : ElemType σ) (mk : σ → Bool × σ)
    (w : World σ) (da : DynamicArray T) (it : Iterator) (v : T)
    (hcopy : (E.copy w.env).1 = false) :
    (da.size < da.capacity →
      (da.emplace_back w mk v).2.1.capacity = da.capacity ∧
      (da.push_back E w v).2.1.capacity = da.capacity ∧
      (da.push_back_move w v).2.1.capacity = da.capacity ∧
      (da.insert E w it v).2.1.capacity = da.capacity) ∧
    (da.size = da.capacity →
      (da.emplace_back w mk v).2.1.capacity = da.capacity + 10 ∧
      (da.push_back E w v).2.1.capacity = da.capacity + 10 ∧
      (da.push_back_move w v).2.1.capacity = da.capacity + 10 ∧
      (da.insert E w it v).2.1.capacity = da.capacity + 10) ∧
    (da.pop_back w).1.capacity = da.capacity := by
  simp only [DynamicArray.size, DynamicArray.capacity, DynamicArray.push_back,
    DynamicArray.push_back_move, emplace_back_capacity, insert_capacity E w da it v hcopy]
  refine ⟨?_, ?_, rfl⟩
  · intro h
    have hne : ¬ da._size = da._capacity := by omega
    simp only [if_neg hne, and_self]
  · intro h
    simp only [if_pos h, and_self]

theorem capacity_growth_step_witness :
    (plainElem.copy sampleWorld.env).1 = false ∧
    (sample123.push_back plainElem sampleWorld 4).2.1.capacity = 5 ∧
    (sample78.push_back plainElem sampleWorld 9).2.1.capacity = 12 ∧
    (sample78.insert plainElem sampleWorld sample78.begin 9).2.1.capacity = 12 ∧
    (sample78.pop_back sampleWorld).1.capacity = 2 :=
  ⟨rfl,
    ((capacity_growth_step plainElem plainElem.copy sampleWorld sample123 sample123.begin 4
      rfl).1 (by decide)).2.1,
    ((capacity_growth_step plainElem plainElem.copy sampleWorld sample78 sample78.begin 9
      rfl).2.1 (by decide)).2.1,
    ((capacity_growth_step plainElem plainElem.copy sampleWorld sample78 sample78.begin 9
      rfl).2.1 (by decide)).2.2.2,
    (capacity_growth_step plainElem plainElem.copy sampleWorld sample78 sample78.begin 9
      rfl).2.2⟩

/-! ## `resize`: capacity, and a raising constructor -/

theorem resize_capacity {T σ : Type} [Inhabited T] (E : ElemType σ) (w : World σ)
    (da : DynamicArray T) (n : Nat) (h : da._size ≤ da._capacity) :
    (da.resize E w n).2.1._capacity = n := by
  by_cases hn : n ≤ da._size
  · simp only [DynamicArray.resize, if_pos hn]
    rw [(decreaseCapacity_props w da (da._capacity - n)).2.1]
    omega
  · simp only [DynamicArray.resize, if_neg hn]
    by_cases hc : n > da._capacity
    · simp only [if_pos hc]
      split_ifs
      · show da._capacity + (n - da._capacity) = n
        omega
      · show da._capacity + (n - da._capacity) = n
        omega
    · simp only [if_neg hc]
      split_ifs
      · show da._capacity - (da._capacity - n) = n
        omega
      · show da._capacity - (da._capacity - n) = n
        omega

/-- C15: after a successful `resize(n)` the capacity is exactly `n`, and so is
the size, whether `n <= size()`, `n > capacity()` or `size() < n <= capacity()`. -/
theorem resize_capacity_exact {T σ : Type} [Inhabited T] (E : ElemType σ) (w : World σ)
    (da : DynamicArray T) (xs : List T) (n : Nat)
    (hv : da.Valid) (hxs : da.contents = xs.map some)
    (hok : (da.resize E w n).1 = Except.ok ()) :
    (da.resize E w n).2.1.capacity = n ∧ (da.resize E w n).2.1.size = n := by
  refine ⟨resize_capacity E w da n hv.2.1, ?_⟩
  by_cases hn : n ≤ da._size
  · exact (resize_shrink_props E w da xs n hv hxs hn).2.1
  · exact (resize_grow_props E w da xs n hv hxs (by omega) hok).1

theorem resize_capacity_exact_witness :
    sample123.Valid ∧ sample123.contents = [1, 2, 3].map some ∧
    (sample123.resize plainElem sampleWorld 2).1 = Except.ok () ∧
    (sample123.resize plainElem sampleWorld 2).2.1.capacity = 2 ∧
    (sample123.resize plainElem sampleWorld 4).2.1.capacity = 4 ∧
    (sample123.resize plainElem sampleWorld 7).2.1.capacity = 7 :=
  ⟨by decide, by decide, rfl,
    (resize_capacity_exact plainElem sampleWorld sample123 [1, 2, 3] 2 (by decide) (by decide)
      rfl).1,
    (resize_capacity_exact plainElem sampleWorld sample123 [1, 2, 3] 4 (by decide) (by decide)
      rfl).1,
    (resize_capacity_exact plainElem sampleWorld sample123 [1, 2, 3] 7 (by decide) (by decide)
      rfl).1⟩

theorem moveLoop_env {T σ : Type} (p : Nat) (old : Block T) (k : Nat) :
    ∀ (i : Nat) (m : Block T) (w : World σ), (moveLoop p old k i m w).2.env = w.env := by
  induction k with
  | zero => intro i m w; rfl
  | succ k ih => intro i m w; simp [moveLoop, ih, World.emit]

theorem decreaseCapacity_env {T σ : Type} (w : World σ) (da : DynamicArray T) (delta : Nat) :
    (da.decreaseCapacity w delta).2.env = w.env := by
  simp [DynamicArray.decreaseCapacity, deallocate, destroyLoop_world, moveLoop_env, allocate]

/-- C16: when a default constructor raises while `resize(n)` with `n > size()`
builds the new tail, slot `i` being the first whose construction raises, the
exception leaves `resize`, the size is still `s`, the first `s` elements are
still `xs`, the capacity is already `n`, and after the capacity change the
only events are the constructions of the slots `s .. i - 1` and the
destruction of each of them once. -/
theorem resize_raise_state {T σ : Type} [Inhabited T] (E : ElemType σ) (w : World σ)
    (da : DynamicArray T) (xs : List T) (n i : Nat)
    (hv : da.Valid) (hxs : da.contents = xs.map some) (hn : da.size < n)
    (hraise : firstRaise E.ctor (n - da.size) da.size w.env = some i) :
    (da.resize E w n).1 = Except.error Exc.thrown ∧
    (da.resize E w n).2.1.size = da.size ∧
    (da.resize E w n).2.1.contents = xs.map some ∧
    (da.resize E w n).2.1.capacity = n ∧
    (da.size ≤ i ∧ i < n) ∧
    (da.resize E w n).2.2.log =
      (if n > da._capacity then da.increaseCapacity w (n - da._capacity)
        else da.decreaseCapacity w (da._capacity - n)).2.log ++
      ((List.range' da.size (i - da.size)).map (Event.construct (w.next + 1)) ++
        (List.range' da.size (i - da.size)).map (Event.destroy (w.next + 1))) := by
  have hn' : da._size < n := hn
  have hcap := resize_capacity E w da n hv.2.1
  obtain ⟨g, hg, g1, g2, g3, g5⟩ := resizeStorage_props w da n hv hn'
  have genv : g.2.env = w.env := by
    rw [hg]
    split_ifs
    · exact increaseCapacity_env w da _
    · exact decreaseCapacity_env w da _
  have gp : g.1._p = w.next + 1 := by
    rw [hg]
    split_ifs <;> rfl
  obtain ⟨h1, h2, _⟩ := hv
  obtain ⟨hlen, hslot⟩ := (contents_eq_iff da xs h1 h2).1 hxs
  obtain ⟨c1, _, _, c4, c5, c6, c7, _⟩ :=
    constructLoop_props E g.1._p (n - g.1._size) g.1._size g.1.mem g.2
  have hraise' : firstRaise E.ctor (n - g.1._size) g.1._size g.2.env = some i := by
    rw [g1, genv]
    exact hraise
  obtain ⟨f1, f2⟩ :=
    (constructLoop_firstRaise E g.1._p (n - g.1._size) g.1._size g.1.mem g.2).1 i hraise'
  have hnle : ¬ n ≤ da._size := by omega
  refine ⟨?_, ?_, ?_, hcap, ?_, ?_⟩
  · simp only [DynamicArray.resize, if_neg hnle]
    rw [← hg, if_pos f1]
  · simp only [DynamicArray.resize, if_neg hnle, DynamicArray.size]
    rw [← hg, if_pos f1]
    exact g1
  · simp only [DynamicArray.resize, if_neg hnle]
    rw [← hg, if_pos f1]
    rw [contents_eq_iff]
    · refine ⟨by rw [hlen]; exact g1.symm, ?_⟩
      intro j hj
      have hj' : j < da._size := by
        have : j < g.1._size := hj
        omega
      show slot (destroyLoop g.1._p _ g.1._size _ _).1 j = xs[j]?
      rw [destroyLoop_slot, if_neg (by omega), c6, if_neg (by omega), g5, if_pos hj',
        hslot j hj']
    · show (destroyLoop g.1._p _ g.1._size _ _).1.length = g.1._capacity
      rw [destroyLoop_length, c5, g3, g2]
    · show g.1._size ≤ g.1._capacity
      omega
  · have := c4 f1
    rw [f2] at c1 this
    simp only [DynamicArray.size]
    omega
  · simp only [DynamicArray.resize, if_neg hnle, DynamicArray.size]
    rw [← hg, if_pos f1]
    rw [f2] at c7
    simp only [destroyLoop_world, f2, c7]
    simp only [g1, gp, List.append_assoc]

theorem resize_raise_state_witness :
    sample123.Valid ∧ sample123.contents = [1, 2, 3].map some ∧ sample123.size < 7 ∧
    firstRaise (throwOnNth 3).ctor (7 - sample123.size) sample123.size countingWorld.env =
      some 5 ∧
    (sample123.resize (throwOnNth 3) countingWorld 7).1 = Except.error Exc.thrown ∧
    (sample123.resize (throwOnNth 3) countingWorld 7).2.1.size = 3 ∧
    (sample123.resize (throwOnNth 3) countingWorld 7).2.1.contents = [1, 2, 3].map some ∧
    (sample123.resize (throwOnNth 3) countingWorld 7).2.1.capacity = 7 :=
  ⟨by decide, by decide, by decide, by decide,
    (resize_raise_state (throwOnNth 3) countingWorld sample123 [1, 2, 3] 7 5
      (by decide) (by decide) (by decide) (by decide)).1,
    (resize_raise_state (throwOnNth 3) countingWorld sample123 [1, 2, 3] 7 5
      (by decide) (by decide) (by decide) (by decide)).2.1,
    (resize_raise_state (throwOnNth 3) countingWorld sample123 [1, 2, 3] 7 5
      (by decide) (by decide) (by decide) (by decide)).2.2.1,
    (resize_raise_state (throwOnNth 3) countingWorld sample123 [1, 2, 3] 7 5
      (by decide) (by decide) (by decide) (by decide)).2.2.2.1⟩

/-! ## `push_back` and `pop_back` in sequence -/

/-- C18: move construction of `B` from `A` leaves `B` with the elements, the
size and the capacity `A` had, and leaves `A` empty: size 0, capacity 0 and a
null buffer. -/
theorem moveCtor_spec {T : Type} (da : DynamicArray T) :
    da.moveCtor.1.contents = da.contents ∧
    da.moveCtor.1.size = da.size ∧
    da.moveCtor.1.capacity = da.capacity ∧
    da.moveCtor.2.size = 0 ∧ da.moveCtor.2.capacity = 0 ∧ da.moveCtor.2.data = 0 ∧
    da.moveCtor.2.contents = [] :=
  ⟨rfl, rfl, rfl, rfl, rfl, rfl, rfl⟩

/-- C19: `clear()` leaves size 0 and capacity 0 with a null buffer, whatever
the capacity was before: every live element is destroyed once and the buffer
is released. -/
theorem clear_spec {T σ : Type} (w : World σ) (da : DynamicArray T) :
    (da.clear w).1.size = 0 ∧ (da.clear w).1.capacity = 0 ∧ (da.clear w).1.data = 0 ∧
    (da.clear w).1.contents = [] ∧
    (da.clear w).2.log =
      w.log ++ ((List.range' 0 da.size).map (Event.destroy da._p) ++
        [Event.deallocate da._p]) := by
  refine ⟨rfl, rfl, rfl, rfl, ?_⟩
  simp [DynamicArray.clear, deallocate, destroyLoop_world, DynamicArray.size]

/-- C20: `swap(a, b)` leaves `a` with the elements, size and capacity `b` had
and `b` with those `a` had; nothing is constructed, destroyed, allocated or
released; swapping twice gives both containers back. -/
theorem swap_spec {T σ : Type} (w : World σ) (a b : DynamicArray T) :
    ((swap w a b).1.contents = b.contents ∧ (swap w a b).1.size = b.size ∧
      (swap w a b).1.capacity = b.capacity) ∧
    ((swap w a b).2.1.contents = a.contents ∧ (swap w a b).2.1.size = a.size ∧
      (swap w a b).2.1.capacity = a.capacity) ∧
    (swap w a b).2.2 = w ∧
    swap (swap w a b).2.2 (swap w a b).1 (swap w a b).2.1 = (a, b, w) :=
  ⟨⟨rfl, rfl, rfl⟩, ⟨rfl, rfl, rfl⟩, rfl, rfl⟩

/-! ## The invariant `size() <= capacity()` -/

theorem sized_sizeFits {T σ : Type} [Inhabited T] (E : ElemType σ) (w : World σ) (n : Nat)
    (d : DynamicArray T) (hd : (DynamicArray.sized E w n).1 = Except.ok d) : d.sizeFits := by
  simp only [DynamicArray.sized] at hd
  split_ifs at hd
  cases hd
  exact Nat.le_refl n

theorem copyCtor_sizeFits {T σ : Type} (E : ElemType σ) (w : World σ) (a d : DynamicArray T)
    (ha : a.sizeFits) (hd : (a.copyCtor E w).1 = Except.ok d) : d.sizeFits := by
  simp only [DynamicArray.copyCtor] at hd
  split_ifs at hd
  cases hd
  exact ha

theorem ofList_sizeFits {T σ : Type} (E : ElemType σ) (w : World σ) (l : List T)
    (d : DynamicArray T) (hd : (DynamicArray.ofList E w l).1 = Except.ok d) : d.sizeFits := by
  simp only [DynamicArray.ofList] at hd
  split_ifs at hd
  cases hd
  exact Nat.le_refl l.length

theorem emplace_back_sizeFits {T σ : Type} (w : World σ) (a : DynamicArray T)
    (mk : σ → Bool × σ) (v : T) (ha : a.sizeFits) : (a.emplace_back w mk v).2.1.sizeFits := by
  have ha' : a._size ≤ a._capacity := ha
  have hd : _deltaScale = 10 := rfl
  simp only [DynamicArray.emplace_back, DynamicArray.emplace_back_ref, DynamicArray.sizeFits,
    DynamicArray.size,
    DynamicArray.capacity]
  split_ifs <;> (try dsimp only [DynamicArray.increaseCapacity]) <;> omega

theorem insert_sizeFits {T σ : Type} (E : ElemType σ) (w : World σ) (a : DynamicArray T)
    (it : Iterator) (v : T) (ha : a.sizeFits) : (a.insert E w it v).2.1.sizeFits := by
  have ha' : a._size ≤ a._capacity := ha
  have hd : _deltaScale = 10 := rfl
  simp only [DynamicArray.insert, DynamicArray.expandAndInsert, DynamicArray.sizeFits,
    DynamicArray.size, DynamicArray.capacity]
  split_ifs <;> (try dsimp only) <;> omega

theorem resize_sizeFits {T σ : Type} [Inhabited T] (E : ElemType σ) (w : World σ)
    (a : DynamicArray T) (n : Nat) (ha : a.sizeFits) : (a.resize E w n).2.1.sizeFits := by
  have ha' : a._size ≤ a._capacity := ha
  have hcap := resize_capacity E w a n ha'
  show (a.resize E w n).2.1._size ≤ (a.resize E w n).2.1._capacity
  rw [hcap]
  simp only [DynamicArray.resize]
  split_ifs <;>
    (try dsimp only [DynamicArray.increaseCapacity, DynamicArray.decreaseCapacity]) <;>
    (try split_ifs) <;> omega

theorem copyAssign_sizeFits {T σ : Type} (E : ElemType σ) (w : World σ)
    (a b : DynamicArray T) (ha : a.sizeFits) (hb : b.sizeFits) :
    (a.copyAssign E w b).2.1.sizeFits ∧ (a.copyAssign E w b).2.2.1.sizeFits := by
  simp only [DynamicArray.copyAssign]
  split_ifs
  · exact ⟨ha, hb⟩
  · exact ⟨ha, hb⟩
  · exact ⟨hb, hb⟩

theorem moveAssign_sizeFits {T σ : Type} (fuel : Nat) (w : World σ)
    (a b : DynamicArray T) (ha : a.sizeFits) (hb : b.sizeFits)
    (r : DynamicArray T × DynamicArray T × World σ)
    (hr : a.moveAssign fuel w b = some r) : r.1.sizeFits ∧ r.2.1.sizeFits := by
  simp only [DynamicArray.moveAssign] at hr
  split_ifs at hr
  · cases hr
    exact ⟨ha, hb⟩
  · cases h : destroyLoopNoStep a._p a._size fuel 0 a.mem w with
    | none => rw [h] at hr; cases hr
    | some d =>
      rw [h] at hr
      cases hr
      exact ⟨hb, Nat.le_refl 0⟩

/-- For an element type whose move constructor does not raise:
`size() <= capacity()` holds after every constructor and, when it holds before,
after every public operation applied within its precondition, also when a
default or copy constructor raises in it (for the move assignment: whenever it
returns); and `empty()` is true exactly when `size() == 0`. -/
theorem sizeFits_invariant {T σ : Type} [Inhabited T] (E : ElemType σ) (mk : σ → Bool × σ)
    (w : World σ) (a b : DynamicArray T) (v : T) (l : List T) (n p fuel : Nat)
    (ha : a.sizeFits) (hb : b.sizeFits) :
    ((DynamicArray.mk0 : DynamicArray T).sizeFits ∧
      (∀ d : DynamicArray T, (DynamicArray.sized E w n).1 = Except.ok d → d.sizeFits) ∧
      (∀ d, (a.copyCtor E w).1 = Except.ok d → d.sizeFits) ∧
      (a.moveCtor.1.sizeFits ∧ a.moveCtor.2.sizeFits) ∧
      (∀ d, (DynamicArray.ofList E w l).1 = Except.ok d → d.sizeFits)) ∧
    ((a.push_back E w v).2.1.sizeFits ∧
      (a.push_back_move w v).2.1.sizeFits ∧
      (a.emplace_back w mk v).2.1.sizeFits ∧
      (0 < a.size → (a.pop_back w).1.sizeFits) ∧
      (p ≤ a.size → (a.insert E w (a.begin.add p) v).2.1.sizeFits) ∧
      (p < a.size → (a.erase w (a.begin.add p)).2.1.sizeFits) ∧
      (a.resize E w n).2.1.sizeFits ∧
      (a.reserve w n).1.sizeFits ∧
      (a.clear w).1.sizeFits) ∧
    ((a.copyAssign E w b).2.1.sizeFits ∧ (a.copyAssign E w b).2.2.1.sizeFits) ∧
    (∀ r, a.moveAssign fuel w b = some r → r.1.sizeFits ∧ r.2.1.sizeFits) ∧
    ((swap w a b).1.sizeFits ∧ (swap w a b).2.1.sizeFits) ∧
    (a.empty = true ↔ a.size = 0) := by
  have ha' : a._size ≤ a._capacity := ha
  refine ⟨⟨Nat.le_refl 0, fun d hd => sized_sizeFits E w n d hd,
      fun d hd => copyCtor_sizeFits E w a d ha hd, ⟨ha, Nat.le_refl 0⟩,
      fun d hd => ofList_sizeFits E w l d hd⟩,
    ⟨emplace_back_sizeFits w a E.copy v ha, emplace_back_sizeFits w a _ v ha,
      emplace_back_sizeFits w a mk v ha, ?_, fun _ => insert_sizeFits E w a _ v ha, ?_,
      resize_sizeFits E w a n ha, ?_, Nat.le_refl 0⟩,
    copyAssign_sizeFits E w a b ha hb,
    fun r hr => moveAssign_sizeFits fuel w a b ha hb r hr, ⟨hb, ha⟩, ?_⟩
  · intro _
    show a._size - 1 ≤ a._capacity
    omega
  · intro _
    show a._size - 1 ≤ a._capacity
    omega
  · simp only [DynamicArray.reserve, DynamicArray.sizeFits, DynamicArray.size,
      DynamicArray.capacity]
    split_ifs
    · exact ha'
    · show a._size ≤ a._capacity + (n - a._capacity)
      omega
  · simp [DynamicArray.empty, DynamicArray.size]

theorem sizeFits_invariant_witness :
    sample123.sizeFits ∧ sample78.sizeFits ∧
    (sample123.push_back plainElem sampleWorld 4).2.1.sizeFits ∧
    (sample78.insert plainElem sampleWorld (sample78.begin.add (1 : Nat)) 9).2.1.sizeFits ∧
    (sample123.resize plainElem sampleWorld 4).2.1.sizeFits ∧
    (sample123.empty = true ↔ sample123.size = 0) :=
  ⟨by decide, by decide,
    (sizeFits_invariant plainElem plainElem.copy sampleWorld sample123 sample78 4 [] 4 1 5
      (by decide) (by decide)).2.1.1,
    ((sizeFits_invariant plainElem plainElem.copy sampleWorld sample78 sample123 9 [] 4 1 5
      (by decide) (by decide)).2.1.2.2.2.2.1) (by decide),
    (sizeFits_invariant plainElem plainElem.copy sampleWorld sample123 sample78 4 [] 4 1 5
      (by decide) (by decide)).2.1.2.2.2.2.2.2.1,
    (sizeFits_invariant plainElem plainElem.copy sampleWorld sample123 sample78 4 [] 4 1 5
      (by decide) (by decide)).2.2.2.2.2⟩

/-! ## The buffer pointer and the capacity -/

theorem slotLt_asymm {T : Type} [LinearOrder T] (o1 o2 : Option T)
    (h : slotLt o1 o2 = true) : slotLt o2 o1 = false := by
  cases o1 with
  | none => simp [slotLt] at h
  | some x =>
    cases o2 with
    | none => simp [slotLt] at h
    | some y =>
      simp only [slotLt, decide_eq_true_eq, decide_eq_false_iff_not] at h ⊢
      exact not_lt.mpr (le_of_lt h)

theorem slotNe_eq_false_iff {T : Type} [LinearOrder T] (o1 o2 : Option T) :
    slotNe o1 o2 = false ↔ (slotLt o1 o2 = false ∧ slotLt o2 o1 = false) := by
  cases o1 with
  | none => cases o2 <;> simp [slotNe, slotLt]
  | some x =>
    cases o2 with
    | none => simp [slotNe, slotLt]
    | some y =>
      simp only [slotNe, slotLt, decide_eq_false_iff_not, not_not, not_lt]
      constructor
      · intro h
        exact ⟨le_of_eq h.symm, le_of_eq h⟩
      · rintro ⟨h1, h2⟩
        exact le_antisymm h2 h1

theorem spaceshipLoop_reverse {T : Type} [LinearOrder T] (a b : DynamicArray T) (k : Nat) :
    ∀ i, spaceshipLoop b a k i = (spaceshipLoop a b k i).map weak_ordering.reverse := by
  induction k with
  | zero => intro i; rfl
  | succ k ih =>
    intro i
    by_cases h1 : slotLt (a.index i) (b.index i) = true
    · have h2 := slotLt_asymm _ _ h1
      simp [spaceshipLoop, h1, h2, weak_ordering.reverse]
    · have h1' : slotLt (a.index i) (b.index i) = false := by simpa using h1
      by_cases h3 : slotLt (b.index i) (a.index i) = true
      · simp [spaceshipLoop, h1', h3, weak_ordering.reverse]
      · have h3' : slotLt (b.index i) (a.index i) = false := by simpa using h3
        simp only [spaceshipLoop, h1', h3', Bool.false_eq_true, if_false]
        exact ih (i + 1)

theorem sizeSpaceship_reverse (m n : Nat) :
    sizeSpaceship n m = (sizeSpaceship m n).reverse := by
  unfold sizeSpaceship
  split_ifs <;> first | rfl | omega

theorem spaceship_reverse {T : Type} [LinearOrder T] (a b : DynamicArray T) :
    spaceship b a = (spaceship a b).reverse := by
  unfold spaceship
  rw [Nat.min_comm b.size a.size, spaceshipLoop_reverse a b]
  cases spaceshipLoop a b (min a.size b.size) 0 with
  | none => exact sizeSpaceship_reverse a.size b.size
  | some r => rfl

theorem spaceshipLoop_ne_equivalent {T : Type} [LinearOrder T] (a b : DynamicArray T)
    (k : Nat) : ∀ i, spaceshipLoop a b k i ≠ some weak_ordering.equivalent := by
  induction k with
  | zero => intro i h; cases h
  | succ k ih =>
    intro i
    simp only [spaceshipLoop]
    split_ifs
    · intro h; cases h
    · intro h; cases h
    · exact ih (i + 1)

theorem equalLoop_iff {T : Type} [LinearOrder T] (a b : DynamicArray T) (k : Nat) :
    ∀ i, equalLoop a b k i = true ↔ spaceshipLoop a b k i = none := by
  induction k with
  | zero => intro i; simp [equalLoop, spaceshipLoop]
  | succ k ih =>
    intro i
    by_cases hne : slotNe (a.index i) (b.index i) = true
    · have hcases : ¬ (slotLt (a.index i) (b.index i) = false ∧
          slotLt (b.index i) (a.index i) = false) := by
        intro hc
        have := (slotNe_eq_false_iff _ _).2 hc
        rw [this] at hne
        cases hne
      simp only [equalLoop, hne, if_true, spaceshipLoop]
      constructor
      · intro h; cases h
      · intro h
        exfalso
        apply hcases
        by_cases h1 : slotLt (a.index i) (b.index i) = true
        · rw [if_pos h1] at h; cases h
        · rw [if_neg h1] at h
          by_cases h2 : slotLt (b.index i) (a.index i) = true
          · rw [if_pos h2] at h; cases h
          · exact ⟨by simpa using h1, by simpa using h2⟩
    · have hne' : slotNe (a.index i) (b.index i) = false := by simpa using hne
      obtain ⟨h1, h2⟩ := (slotNe_eq_false_iff _ _).1 hne'
      simp only [equalLoop, hne', spaceshipLoop, h1, h2, Bool.false_eq_true, if_false]
      exact ih (i + 1)

/-- C22: for a linearly ordered element type `operator==` and `operator<=>`
agree: `a == b` is true exactly when `a <=> b` is equivalent, and `a <=> b` is
less exactly when `b <=> a` is greater. -/
theorem eq_agrees_with_spaceship {T : Type} [LinearOrder T] (a b : DynamicArray T) :
    (operator_eq a b = true ↔ spaceship a b = weak_ordering.equivalent) ∧
    (spaceship a b = weak_ordering.less ↔ spaceship b a = weak_ordering.greater) := by
  constructor
  · by_cases hs : a.size = b.size
    · have hmin : min a.size b.size = a.size := by omega
      have hne : ¬ a.size ≠ b.size := fun h => h hs
      simp only [operator_eq, if_neg hne, Nat.sub_zero, equalLoop_iff, spaceship, hmin]
      cases hl : spaceshipLoop a b a.size 0 with
      | none => simp [sizeSpaceship, hs]
      | some r =>
        have := spaceshipLoop_ne_equivalent a b a.size 0
        rw [hl] at this
        constructor
        · intro h; cases h
        · intro h
          exact absurd (congrArg some h) this
    · have hne : a.size ≠ b.size := hs
      simp only [operator_eq, if_pos hne, spaceship]
      cases hl : spaceshipLoop a b (min a.size b.size) 0 with
      | none =>
        simp only [sizeSpaceship]
        split_ifs <;> simp
      | some r =>
        have := spaceshipLoop_ne_equivalent a b (min a.size b.size) 0
        rw [hl] at this
        simp only [Bool.false_eq_true, false_iff]
        intro h
        exact this (congrArg some h)
  · rw [spaceship_reverse a b]
    cases spaceship a b <;> simp [weak_ordering.reverse]

/-! ## `push_back` of an element of the container itself -/

theorem emplace_back_ref_value {T σ : Type} (w : World σ) (da : DynamicArray T)
    (mk : σ → Bool × σ) (v : T) :
    da.emplace_back_ref w mk (Arg.value v) = da.emplace_back w mk v := rfl

theorem leftBehind_slot {T σ : Type} (w : World σ) (da : DynamicArray T) (delta key : Nat)
    (hkey : key < da._size) : slot (da.leftBehind w delta : Block T) key = none := by
  simp only [DynamicArray.leftBehind, relocateLoop_old_slot]
  rw [if_pos (by omega)]

/-- C3: on a full container, `push_back((*this)[key])` does not append the
value of that element: the container grows first, the old block is emptied
and released, and the reference is read afterwards, so the new last slot
holds no well-defined object and the elements are no sequence of the form `xs`
followed by a value. -/
theorem push_back_ref_full_dangles {T σ : Type} (E : ElemType σ) (w : World σ)
    (da : DynamicArray T) (key : Nat) (hv : da.Valid) (hfull : da.size = da.capacity)
    (hkey : key < da.size) (hcopy : (E.copy w.env).1 = false) :
    (da.push_back_ref E w (Arg.element key)).1 = Except.ok () ∧
    (da.push_back_ref E w (Arg.element key)).2.1.size = da.size + 1 ∧
    (da.push_back_ref E w (Arg.element key)).2.1.index da.size = none ∧
    ∀ ys : List T, (da.push_back_ref E w (Arg.element key)).2.1.contents ≠ ys.map some := by
  have hfull' : da._size = da._capacity := hfull
  have hkey' : key < da._size := hkey
  obtain ⟨h1, h2, _⟩ := hv
  obtain ⟨g1, g2, g3, _, _⟩ := increaseCapacity_props w da _deltaScale h2
  have genv := increaseCapacity_env w da _deltaScale
  have hd : _deltaScale = 10 := rfl
  have hmk : (E.copy (da.increaseCapacity w _deltaScale).2.env).1 = false := by
    rw [genv]
    exact hcopy
  have key_eq : da.push_back_ref E w (Arg.element key) =
      (Except.ok (),
        { (da.increaseCapacity w _deltaScale).1 with
          mem := (da.increaseCapacity w _deltaScale).1.mem.set
            (da.increaseCapacity w _deltaScale).1._size none,
          _size := (da.increaseCapacity w _deltaScale).1._size + 1 },
        World.emit { (da.increaseCapacity w _deltaScale).2 with
            env := (E.copy (da.increaseCapacity w _deltaScale).2.env).2 }
          (Event.construct (da.increaseCapacity w _deltaScale).1._p
            (da.increaseCapacity w _deltaScale).1._size)) := by
    simp only [DynamicArray.push_back_ref, DynamicArray.emplace_back_ref, if_pos hfull', hmk,
      Bool.false_eq_true, if_false, Arg.read, leftBehind_slot w da _deltaScale key hkey']
  rw [key_eq]
  have hidx : slot ((da.increaseCapacity w _deltaScale).1.mem.set
      (da.increaseCapacity w _deltaScale).1._size none) da._size = none := by
    rw [slot_set, g1, if_pos rfl, if_pos (by rw [g3]; omega)]
  have hlen : da._size < ((da.increaseCapacity w _deltaScale).1.mem.set
      (da.increaseCapacity w _deltaScale).1._size none).length := by
    rw [List.length_set, g3]
    omega
  refine ⟨rfl, ?_, hidx, ?_⟩
  · show (da.increaseCapacity w _deltaScale).1._size + 1 = da._size + 1
    rw [g1]
  · intro ys hys
    have hys' : ((da.increaseCapacity w _deltaScale).1.mem.set
        (da.increaseCapacity w _deltaScale).1._size none).take
        ((da.increaseCapacity w _deltaScale).1._size + 1) = ys.map some := hys
    have h3 : (((da.increaseCapacity w _deltaScale).1.mem.set
        (da.increaseCapacity w _deltaScale).1._size none).take
        ((da.increaseCapacity w _deltaScale).1._size + 1))[da._size]? =
        (ys.map some)[da._size]? := by rw [hys']
    rw [List.getElem?_take, if_pos (by rw [g1]; omega), getElem?_eq_some_slot _ _ hlen, hidx,
      List.getElem?_map] at h3
    cases hy : ys[da._size]? with
    | none => rw [hy] at h3; cases h3
    | some y => rw [hy] at h3; cases h3

theorem push_back_ref_full_dangles_witness :
    sample78.Valid ∧ sample78.size = sample78.capacity ∧ 0 < sample78.size ∧
    (plainElem.copy sampleWorld.env).1 = false ∧
    (sample78.push_back_ref plainElem sampleWorld (Arg.element 0)).2.1.contents =
      [some 7, some 8, none] ∧
    (sample78.push_back_ref plainElem sampleWorld (Arg.element 0)).2.1.contents ≠
      ([7, 8] ++ [7]).map some :=
  ⟨by decide, by decide, by decide, rfl, by decide,
    (push_back_ref_full_dangles plainElem sampleWorld sample78 0 (by decide) (by decide)
      (by decide) rfl).2.2.2 ([7, 8] ++ [7])⟩

/-! ## `resize` to a smaller size with a move constructor that raises -/

theorem moveLoopWith_noexcept {T σ : Type} (p : Nat) (old : Block T) (k : Nat) :
    ∀ (i : Nat) (m : Block T) (w : World σ),
      moveLoopWith noexceptMove p old k i m w =
        ⟨false, i + k, (moveLoop p old k i m w).1, (moveLoop p old k i m w).2⟩ := by
  induction k with
  | zero => intro i m w; rfl
  | succ k ih =>
    intro i m w
    simp only [moveLoopWith, noexceptMove, Bool.false_eq_true, if_false, moveLoop]
    have := ih (i + 1) (m.set i (slot old i)) (w.emit (Event.construct p i))
    simp only [noexceptMove] at this
    rw [show (World.emit { w with env := w.env } (Event.construct p i)) =
      w.emit (Event.construct p i) from rfl, this]
    congr 1
    omega

/-- With a move constructor that does not raise, `decreaseCapacityWith` is
`decreaseCapacity`. -/
theorem decreaseCapacityWith_noexcept {T σ : Type} (w : World σ) (da : DynamicArray T)
    (delta : Nat) :
    da.decreaseCapacityWith noexceptMove w delta = (Except.ok (), da.decreaseCapacity w delta) := by
  simp only [DynamicArray.decreaseCapacityWith, moveLoopWith_noexcept, Bool.false_eq_true,
    if_false, DynamicArray.decreaseCapacity]

/-- With a move constructor that does not raise, `resizeWith` is `resize`. -/
theorem resizeWith_noexcept {T σ : Type} [Inhabited T] (E : ElemType σ) (w : World σ)
    (da : DynamicArray T) (n : Nat) :
    da.resizeWith E noexceptMove w n = da.resize E w n := by
  simp only [DynamicArray.resizeWith, DynamicArray.resize, decreaseCapacityWith_noexcept]
  split_ifs <;> rfl

theorem moveLoopWith_firstRaise {T σ : Type} (mv : σ → Bool × σ) (p : Nat) (old : Block T)
    (k : Nat) :
    ∀ (i : Nat) (m : Block T) (w : World σ) (r : Nat),
      firstRaise mv k i w.env = some r → (moveLoopWith mv p old k i m w).raised = true := by
  induction k with
  | zero => intro i m w r h; simp [firstRaise] at h
  | succ k ih =>
    intro i m w r h
    by_cases hm : (mv w.env).1 = true
    · simp only [moveLoopWith, hm, if_true]
    · have hm' : (mv w.env).1 = false := by simpa using hm
      simp only [firstRaise, hm', Bool.false_eq_true, if_false] at h
      simp only [moveLoopWith, hm', Bool.false_eq_true, if_false]
      exact ih (i + 1) _ (World.emit { w with env := (mv w.env).2 } (Event.construct p i)) r h

/-- C12: `resize(n)` with `n < size()` does not preserve `size() <= capacity()`
when a move in the relocation loop of `decreaseCapacity` raises: the exception
leaves `resize` with the capacity already lowered to `n` and the size as it
was, so that `size() > capacity()`. -/
theorem resizeWith_shrink_raise {T σ : Type} [Inhabited T] (E : ElemType σ)
    (mv : σ → Bool × σ) (w : World σ) (da : DynamicArray T) (n i : Nat)
    (hfit : da.sizeFits) (hn : n < da.size) (hraise : firstRaise mv n 0 w.env = some i) :
    (da.resizeWith E mv w n).1 = Except.error Exc.thrown ∧
    (da.resizeWith E mv w n).2.1.size = da.size ∧
    (da.resizeWith E mv w n).2.1.capacity = n ∧
    ¬ (da.resizeWith E mv w n).2.1.sizeFits := by
  have hfit' : da._size ≤ da._capacity := hfit
  have hn' : n < da._size := hn
  have hle : n ≤ da._size := by omega
  have hcap : da._capacity - (da._capacity - n) = n := by omega
  have hmin : min da._size (da._capacity - (da._capacity - n)) = n := by omega
  have hr := moveLoopWith_firstRaise mv
    (allocate w (da._capacity - (da._capacity - n)) : Ptr × Block T × World σ).1 da.mem n 0
    (allocate w (da._capacity - (da._capacity - n)) : Ptr × Block T × World σ).2.1
    (allocate w (da._capacity - (da._capacity - n)) : Ptr × Block T × World σ).2.2 i hraise
  have key_eq : da.resizeWith E mv w n =
      (Except.error Exc.thrown, { da with _capacity := da._capacity - (da._capacity - n) },
        (moveLoopWith mv
          (allocate w (da._capacity - (da._capacity - n)) : Ptr × Block T × World σ).1 da.mem
          n 0 (allocate w (da._capacity - (da._capacity - n)) : Ptr × Block T × World σ).2.1
          (allocate w (da._capacity - (da._capacity - n)) :
            Ptr × Block T × World σ).2.2).world) := by
    simp only [DynamicArray.resizeWith, if_pos hle, DynamicArray.decreaseCapacityWith, hmin, hr,
      if_true]
  rw [key_eq]
  refine ⟨rfl, rfl, hcap, ?_⟩
  show ¬ da._size ≤ da._capacity - (da._capacity - n)
  omega

theorem resizeWith_shrink_raise_witness :
    sample123.sizeFits ∧ 2 < sample123.size ∧
    firstRaise (throwOnNth 2).copy 2 0 countingWorld.env = some 1 ∧
    (sample123.resizeWith (throwOnNth 2) (throwOnNth 2).copy countingWorld 2).1 =
      Except.error Exc.thrown ∧
    (sample123.resizeWith (throwOnNth 2) (throwOnNth 2).copy countingWorld 2).2.1.size = 3 ∧
    (sample123.resizeWith (throwOnNth 2) (throwOnNth 2).copy countingWorld 2).2.1.capacity = 2 ∧
    ¬ (sample123.resizeWith (throwOnNth 2) (throwOnNth 2).copy countingWorld 2).2.1.sizeFits :=
  ⟨by decide, by decide, by decide,
    (resizeWith_shrink_raise (throwOnNth 2) (throwOnNth 2).copy countingWorld sample123 2 1
      (by decide) (by decide) (by decide)).1,
    (resizeWith_shrink_raise (throwOnNth 2) (throwOnNth 2).copy countingWorld sample123 2 1
      (by decide) (by decide) (by decide)).2.1,
    (resizeWith_shrink_raise (throwOnNth 2) (throwOnNth 2).copy countingWorld sample123 2 1
      (by decide) (by decide) (by decide)).2.2.1,
    (resizeWith_shrink_raise (throwOnNth 2) (throwOnNth 2).copy countingWorld sample123 2 1
      (by decide) (by decide) (by decide)).2.2.2⟩

end DynArr
